import Mathlib

/-!
Verification of the map-reprojection browser extension core
(`src/bilinear-interpolation.ts`, `src/reproject.ts`,
`src/ReprojectableImageManager.ts`).

JavaScript numbers are modelled by `ℚ` (exact arithmetic); the places where
the code can observe non-finite values (`isFinite` filtering in bounds
discovery, the round-trip tolerance comparison) use an explicit `JsNum` type
with `NaN`/`±Infinity` constructors mirroring IEEE comparison semantics.
The external d3 projection capability is modelled as a black box: a pair of
unit-scale `forward`/`invert` functions, with `.scale(k).translate(t)`
acting affinely on the unit-scale output exactly as d3 does
(`p ↦ (k·px + tx, k·py + ty)` for forward, the inverse affine map composed
before the raw invert for `invert`).
-/

namespace MapExt

/-! ## JavaScript number model for non-finite observations -/

/-- A JavaScript number as observed by `isFinite` checks and comparisons:
either a finite value (modelled exactly by `ℚ`) or one of the non-finite
IEEE values. -/
inductive JsNum where
  | fin (q : ℚ)
  | posInf
  | negInf
  | nan
  deriving DecidableEq

/-- `isFinite(v)`. -/
def JsNum.isFinite : JsNum → Bool
  | .fin _ => true
  | _ => false

/-- The finite value carried by a `JsNum` (0 for non-finite values; only
used under an `isFinite` guard). -/
def JsNum.toQ : JsNum → ℚ
  | .fin q => q
  | _ => 0

/-- `v - q` for a JsNum `v` and finite `q` (IEEE: infinities absorb,
NaN propagates). -/
def JsNum.subQ : JsNum → ℚ → JsNum
  | .fin a, q => .fin (a - q)
  | .posInf, _ => .posInf
  | .negInf, _ => .negInf
  | .nan, _ => .nan

/-- `Math.abs` on a JsNum (`abs(-∞) = ∞`, `abs(NaN) = NaN`). -/
def JsNum.abs : JsNum → JsNum
  | .fin a => .fin |a|
  | .posInf => .posInf
  | .negInf => .posInf
  | .nan => .nan

/-- `v > q` for a JsNum `v` and finite `q` (IEEE: any comparison with NaN
is false, `+∞ > q` is true, `-∞ > q` is false). -/
def JsNum.gtQ : JsNum → ℚ → Bool
  | .fin a, q => decide (a > q)
  | .posInf, _ => true
  | .negInf, _ => false
  | .nan, _ => false

/-- The affine action of d3's `.scale(k).translate(t)` on one coordinate of
a unit-scale projection output: `v ↦ k·v + t`.  For non-finite `v` this
follows IEEE arithmetic (`k·±∞` keeps/flips the infinity for `k ≠ 0` and is
NaN for `k = 0`; adding a finite `t` changes nothing; NaN propagates). -/
def JsNum.affine (k t : ℚ) : JsNum → JsNum
  | .fin q => .fin (k * q + t)
  | .posInf => if 0 < k then .posInf else if k < 0 then .negInf else .nan
  | .negInf => if 0 < k then .negInf else if k < 0 then .posInf else .nan
  | .nan => .nan

/-! ## Resampler (`src/bilinear-interpolation.ts`) -/

/-- RGBA quadruple as produced by `bilinearInterpolate` (each channel is an
integer because the source rounds each channel with `Math.round`). -/
abbrev Rgba := ℤ × ℤ × ℤ × ℤ

/-- Channel projection of an `Rgba` value (0 = R, 1 = G, 2 = B, 3 = A). -/
def Rgba.channel (c : Rgba) : ℕ → ℤ
  | 0 => c.1
  | 1 => c.2.1
  | 2 => c.2.2.1
  | _ => c.2.2.2

/-- `clamp(value, min, max) = Math.max(min, Math.min(max, value))`. -/
def clamp (value lo hi : ℤ) : ℤ := max lo (min value hi)

/-- `Math.round` for finite values: round half toward positive infinity. -/
def jsRound (q : ℚ) : ℤ := ⌊q + 1 / 2⌋

/-- The four corner byte indices computed by `bilinearInterpolate`:
floor/successor coordinates, clamped into `[0, width-1] × [0, height-1]`,
then `(clampY * width + clampX) * 4`. -/
def cornerIdx (width height : ℕ) (x y : ℚ) : ℕ × ℕ × ℕ × ℕ :=
  let x0 := ⌊x⌋
  let x1 := x0 + 1
  let y0 := ⌊y⌋
  let y1 := y0 + 1
  let clampX0 := clamp x0 0 ((width : ℤ) - 1)
  let clampY0 := clamp y0 0 ((height : ℤ) - 1)
  let clampX1 := clamp x1 0 ((width : ℤ) - 1)
  let clampY1 := clamp y1 0 ((height : ℤ) - 1)
  (((clampY0 * width + clampX0) * 4).toNat,
   ((clampY0 * width + clampX1) * 4).toNat,
   ((clampY1 * width + clampX0) * 4).toNat,
   ((clampY1 * width + clampX1) * 4).toNat)

/-- One channel of the interpolation: read the four corner channel bytes,
blend horizontally with weight `tx`, then vertically with weight `ty`, and
round. -/
def interpChannel (data : List ℕ) (idx00 idx10 idx01 idx11 : ℕ)
    (tx ty : ℚ) (channel : ℕ) : ℤ :=
  let c00 : ℚ := data.getD (idx00 + channel) 0
  let c10 : ℚ := data.getD (idx10 + channel) 0
  let c01 : ℚ := data.getD (idx01 + channel) 0
  let c11 : ℚ := data.getD (idx11 + channel) 0
  let top := c00 * (1 - tx) + c10 * tx
  let bottom := c01 * (1 - tx) + c11 * tx
  jsRound (top * (1 - ty) + bottom * ty)

/-- `bilinearInterpolate({data, width, height}, [x, y])` from
`src/bilinear-interpolation.ts`: bilinear blend of the four clamped corner
pixels with fractional weights `tx = x - ⌊x⌋`, `ty = y - ⌊y⌋`, each of the
four RGBA channels independently. -/
def bilinearInterpolate (data : List ℕ) (width height : ℕ) (x y : ℚ) : Rgba :=
  let tx : ℚ := x - ⌊x⌋
  let ty : ℚ := y - ⌊y⌋
  let idx := cornerIdx width height x y
  (interpChannel data idx.1 idx.2.1 idx.2.2.1 idx.2.2.2 tx ty 0,
   interpChannel data idx.1 idx.2.1 idx.2.2.1 idx.2.2.2 tx ty 1,
   interpChannel data idx.1 idx.2.1 idx.2.2.1 idx.2.2.2 tx ty 2,
   interpChannel data idx.1 idx.2.1 idx.2.2.1 idx.2.2.2 tx ty 3)

theorem jsRound_intCast (n : ℤ) : jsRound (n : ℚ) = n := by
  unfold jsRound
  rw [Int.floor_eq_iff]
  constructor
  · linarith
  · have : ((n + 1 : ℤ) : ℚ) = (n : ℚ) + 1 := by push_cast; ring
    linarith [this.ge]

theorem jsRound_natCast (n : ℕ) : jsRound (n : ℚ) = n := by
  have := jsRound_intCast (n : ℤ)
  simpa using this

theorem clamp_of_mem (v lo hi : ℤ) (h1 : lo ≤ v) (h2 : v ≤ hi) : clamp v lo hi = v := by
  unfold clamp
  omega

theorem interpChannel_zero_weights (data : List ℕ) (idx00 idx10 idx01 idx11 ch : ℕ) :
    interpChannel data idx00 idx10 idx01 idx11 0 0 ch = (data.getD (idx00 + ch) 0 : ℤ) := by
  simp only [interpChannel, mul_zero, sub_zero, mul_one, add_zero]
  exact jsRound_natCast _

theorem cornerIdx_intCoords (w h i j : ℕ) (hi : i < w) (hj : j < h) :
    (cornerIdx w h (i : ℚ) (j : ℚ)).1 = (j * w + i) * 4 := by
  simp only [cornerIdx, Int.floor_natCast]
  rw [clamp_of_mem (i : ℤ) 0 ((w : ℤ) - 1) (by positivity) (by omega),
    clamp_of_mem (j : ℤ) 0 ((h : ℤ) - 1) (by positivity) (by omega)]
  have : ((j : ℤ) * w + i) * 4 = (((j * w + i) * 4 : ℕ) : ℤ) := by push_cast; ring
  rw [this, Int.toNat_natCast]

/-- **C9.** At exact integer coordinates inside the buffer, the bilinear
resampler returns exactly the stored RGBA pixel at `(x, y)` — the
degenerate case `tx = ty = 0` of the general interpolation formula, with no
rounding drift. -/
theorem bilinearInterpolate_integer_exact (data : List ℕ) (w h i j : ℕ)
    (_hw : 1 ≤ w) (_hh : 1 ≤ h) (_h255 : ∀ v ∈ data, v ≤ 255)
    (hi : i < w) (hj : j < h) :
    bilinearInterpolate data w h (i : ℚ) (j : ℚ) =
      ((data.getD ((j * w + i) * 4) 0 : ℤ),
       (data.getD ((j * w + i) * 4 + 1) 0 : ℤ),
       (data.getD ((j * w + i) * 4 + 2) 0 : ℤ),
       (data.getD ((j * w + i) * 4 + 3) 0 : ℤ)) := by
  have hfloor_i : ((i : ℚ) - ⌊(i : ℚ)⌋ : ℚ) = 0 := by
    rw [Int.floor_natCast]
    simp
  have hfloor_j : ((j : ℚ) - ⌊(j : ℚ)⌋ : ℚ) = 0 := by
    rw [Int.floor_natCast]
    simp
  simp only [bilinearInterpolate, hfloor_i, hfloor_j, interpChannel_zero_weights,
    cornerIdx_intCoords w h i j hi hj]
  simp

/-- Witness for C9 on a concrete 1×1 buffer. -/
theorem bilinearInterpolate_integer_exact_witness :
    bilinearInterpolate [10, 20, 30, 40] 1 1 ((0 : ℕ) : ℚ) ((0 : ℕ) : ℚ) = (10, 20, 30, 40) := by
  have := bilinearInterpolate_integer_exact [10, 20, 30, 40] 1 1 0 0 (by norm_num) (by norm_num)
    (by decide) (by norm_num) (by norm_num)
  simpa using this

theorem fract_nonneg_le_one (q : ℚ) : 0 ≤ q - ⌊q⌋ ∧ q - ⌊q⌋ ≤ 1 := by
  constructor
  · linarith [Int.floor_le q]
  · linarith [Int.lt_floor_add_one q]

theorem jsRound_bounds (v : ℚ) (lo hi : ℤ) (hlo : (lo : ℚ) ≤ v) (hhi : v ≤ (hi : ℚ)) :
    lo ≤ jsRound v ∧ jsRound v ≤ hi := by
  constructor
  · rw [jsRound, Int.le_floor]
    linarith
  · have : jsRound v < hi + 1 := by
      rw [jsRound, Int.floor_lt]
      push_cast
      linarith
    omega

theorem blend_bounds (lo hi c00 c10 c01 c11 tx ty : ℚ)
    (h00l : lo ≤ c00) (h00h : c00 ≤ hi) (h10l : lo ≤ c10) (h10h : c10 ≤ hi)
    (h01l : lo ≤ c01) (h01h : c01 ≤ hi) (h11l : lo ≤ c11) (h11h : c11 ≤ hi)
    (htx0 : 0 ≤ tx) (htx1 : tx ≤ 1) (hty0 : 0 ≤ ty) (hty1 : ty ≤ 1) :
    lo ≤ (c00 * (1 - tx) + c10 * tx) * (1 - ty) + (c01 * (1 - tx) + c11 * tx) * ty ∧
      (c00 * (1 - tx) + c10 * tx) * (1 - ty) + (c01 * (1 - tx) + c11 * tx) * ty ≤ hi := by
  have w00 : (0 : ℚ) ≤ (1 - tx) * (1 - ty) := by nlinarith
  have w10 : (0 : ℚ) ≤ tx * (1 - ty) := by nlinarith
  have w01 : (0 : ℚ) ≤ (1 - tx) * ty := by nlinarith
  have w11 : (0 : ℚ) ≤ tx * ty := by nlinarith
  constructor
  · nlinarith [mul_nonneg (by linarith : (0:ℚ) ≤ c00 - lo) w00,
      mul_nonneg (by linarith : (0:ℚ) ≤ c10 - lo) w10,
      mul_nonneg (by linarith : (0:ℚ) ≤ c01 - lo) w01,
      mul_nonneg (by linarith : (0:ℚ) ≤ c11 - lo) w11]
  · nlinarith [mul_nonneg (by linarith : (0:ℚ) ≤ hi - c00) w00,
      mul_nonneg (by linarith : (0:ℚ) ≤ hi - c10) w10,
      mul_nonneg (by linarith : (0:ℚ) ≤ hi - c01) w01,
      mul_nonneg (by linarith : (0:ℚ) ≤ hi - c11) w11]

theorem interpChannel_bounds (data : List ℕ) (i00 i10 i01 i11 ch : ℕ) (tx ty : ℚ)
    (htx0 : 0 ≤ tx) (htx1 : tx ≤ 1) (hty0 : 0 ≤ ty) (hty1 : ty ≤ 1) (lo hi : ℤ)
    (h00 : lo ≤ (data.getD (i00 + ch) 0 : ℤ) ∧ (data.getD (i00 + ch) 0 : ℤ) ≤ hi)
    (h10 : lo ≤ (data.getD (i10 + ch) 0 : ℤ) ∧ (data.getD (i10 + ch) 0 : ℤ) ≤ hi)
    (h01 : lo ≤ (data.getD (i01 + ch) 0 : ℤ) ∧ (data.getD (i01 + ch) 0 : ℤ) ≤ hi)
    (h11 : lo ≤ (data.getD (i11 + ch) 0 : ℤ) ∧ (data.getD (i11 + ch) 0 : ℤ) ≤ hi) :
    lo ≤ interpChannel data i00 i10 i01 i11 tx ty ch ∧
      interpChannel data i00 i10 i01 i11 tx ty ch ≤ hi := by
  have hb := blend_bounds (lo : ℚ) (hi : ℚ) (data.getD (i00 + ch) 0 : ℚ)
    (data.getD (i10 + ch) 0 : ℚ) (data.getD (i01 + ch) 0 : ℚ) (data.getD (i11 + ch) 0 : ℚ)
    tx ty (by exact_mod_cast h00.1) (by exact_mod_cast h00.2) (by exact_mod_cast h10.1)
    (by exact_mod_cast h10.2) (by exact_mod_cast h01.1) (by exact_mod_cast h01.2)
    (by exact_mod_cast h11.1) (by exact_mod_cast h11.2) htx0 htx1 hty0 hty1
  exact jsRound_bounds _ lo hi hb.1 hb.2

theorem getD_le_255 (data : List ℕ) (h255 : ∀ v ∈ data, v ≤ 255) (k : ℕ) :
    data.getD k 0 ≤ 255 := by
  rcases lt_or_ge k data.length with hk | hk
  · rw [List.getD_eq_getElem data 0 hk]
    exact h255 _ (data.getElem_mem hk)
  · rw [List.getD_eq_default data 0 hk]
    norm_num

theorem channel_eq_interpChannel (data : List ℕ) (w h : ℕ) (x y : ℚ) (ch : ℕ) (hch : ch < 4) :
    (bilinearInterpolate data w h x y).channel ch =
      interpChannel data (cornerIdx w h x y).1 (cornerIdx w h x y).2.1
        (cornerIdx w h x y).2.2.1 (cornerIdx w h x y).2.2.2 (x - ⌊x⌋) (y - ⌊y⌋) ch := by
  interval_cases ch <;> rfl

/-- **C10.** For every buffer and every coordinate pair, each output
channel of the bilinear resampler lies between the minimum and the maximum
of that channel's values at the four clamped corner pixels (the result is a
rounded convex combination, since `tx, ty ∈ [0, 1)`), and in particular is
an integer in `[0, 255]` when the buffer's channel values are in
`[0, 255]`. -/
theorem bilinearInterpolate_channel_bounds (data : List ℕ) (w h : ℕ) (x y : ℚ) (ch : ℕ)
    (_hw : 1 ≤ w) (_hh : 1 ≤ h) (hch : ch < 4) (h255 : ∀ v ∈ data, v ≤ 255) :
    (min (min (data.getD ((cornerIdx w h x y).1 + ch) 0 : ℤ)
          (data.getD ((cornerIdx w h x y).2.1 + ch) 0 : ℤ))
        (min (data.getD ((cornerIdx w h x y).2.2.1 + ch) 0 : ℤ)
          (data.getD ((cornerIdx w h x y).2.2.2 + ch) 0 : ℤ)) ≤
        (bilinearInterpolate data w h x y).channel ch ∧
      (bilinearInterpolate data w h x y).channel ch ≤
        max (max (data.getD ((cornerIdx w h x y).1 + ch) 0 : ℤ)
            (data.getD ((cornerIdx w h x y).2.1 + ch) 0 : ℤ))
          (max (data.getD ((cornerIdx w h x y).2.2.1 + ch) 0 : ℤ)
            (data.getD ((cornerIdx w h x y).2.2.2 + ch) 0 : ℤ))) ∧
      0 ≤ (bilinearInterpolate data w h x y).channel ch ∧
        (bilinearInterpolate data w h x y).channel ch ≤ 255 := by
  rw [channel_eq_interpChannel data w h x y ch hch]
  have htx := fract_nonneg_le_one x
  have hty := fract_nonneg_le_one y
  constructor
  · exact interpChannel_bounds data _ _ _ _ ch _ _ htx.1 htx.2 hty.1 hty.2 _ _
      (by constructor <;> simp [le_min_iff, min_le_iff, le_max_iff, max_le_iff])
      (by constructor <;> simp [le_min_iff, min_le_iff, le_max_iff, max_le_iff])
      (by constructor <;> simp [le_min_iff, min_le_iff, le_max_iff, max_le_iff])
      (by constructor <;> simp [le_min_iff, min_le_iff, le_max_iff, max_le_iff])
  · exact interpChannel_bounds data _ _ _ _ ch _ _ htx.1 htx.2 hty.1 hty.2 0 255
      (by constructor <;> [positivity; exact_mod_cast getD_le_255 data h255 _])
      (by constructor <;> [positivity; exact_mod_cast getD_le_255 data h255 _])
      (by constructor <;> [positivity; exact_mod_cast getD_le_255 data h255 _])
      (by constructor <;> [positivity; exact_mod_cast getD_le_255 data h255 _])

/-- Witness for C10 on a concrete 1×1 buffer at a fractional coordinate. -/
theorem bilinearInterpolate_channel_bounds_witness :
    (min (min (([0, 100, 200, 255] : List ℕ).getD ((cornerIdx 1 1 (1/2) (1/2)).1 + 1) 0 : ℤ)
          (([0, 100, 200, 255] : List ℕ).getD ((cornerIdx 1 1 (1/2) (1/2)).2.1 + 1) 0 : ℤ))
        (min (([0, 100, 200, 255] : List ℕ).getD ((cornerIdx 1 1 (1/2) (1/2)).2.2.1 + 1) 0 : ℤ)
          (([0, 100, 200, 255] : List ℕ).getD ((cornerIdx 1 1 (1/2) (1/2)).2.2.2 + 1) 0 : ℤ)) ≤
        (bilinearInterpolate [0, 100, 200, 255] 1 1 (1/2) (1/2)).channel 1 ∧
      (bilinearInterpolate [0, 100, 200, 255] 1 1 (1/2) (1/2)).channel 1 ≤
        max (max (([0, 100, 200, 255] : List ℕ).getD ((cornerIdx 1 1 (1/2) (1/2)).1 + 1) 0 : ℤ)
            (([0, 100, 200, 255] : List ℕ).getD ((cornerIdx 1 1 (1/2) (1/2)).2.1 + 1) 0 : ℤ))
          (max (([0, 100, 200, 255] : List ℕ).getD ((cornerIdx 1 1 (1/2) (1/2)).2.2.1 + 1) 0 : ℤ)
            (([0, 100, 200, 255] : List ℕ).getD ((cornerIdx 1 1 (1/2) (1/2)).2.2.2 + 1) 0 : ℤ))) ∧
      0 ≤ (bilinearInterpolate [0, 100, 200, 255] 1 1 (1/2) (1/2)).channel 1 ∧
        (bilinearInterpolate [0, 100, 200, 255] 1 1 (1/2) (1/2)).channel 1 ≤ 255 :=
  bilinearInterpolate_channel_bounds [0, 100, 200, 255] 1 1 (1/2) (1/2) 1
    (by norm_num) (by norm_num) (by norm_num) (by decide)

/-! ## Operation state machine (`src/ReprojectableImageManager.ts`)

`ReprojectionOperation`'s only mutable state is `_state`; its methods are
modelled as functions from the current state to `Except` (an `AssertionError`
throw is `.error`).  A successful transition returns the new state together
with the single argument passed to the `onEnd` callback, so "fires the end
callback exactly once per transition" is visible in the result type. -/

inductive OperationState where
  | inProgress
  | completed
  | failed
  | aborted
  deriving DecidableEq

/-- `private _state: OperationState = 'in-progress'`. -/
def ReprojectionOperation.initialState : OperationState := .inProgress

/-- `updateProgress(fraction)`: asserts in-progress, then invokes the
`onUpdate` callback with `fraction` (returned as the event). -/
def ReprojectionOperation.updateProgress (s : OperationState) (fraction : ℚ) :
    Except String (OperationState × ℚ) :=
  if s = .inProgress then .ok (s, fraction)
  else .error "can only update operations that are in progress"

/-- `onAborted()`: asserts in-progress, sets `_state = 'aborted'`, invokes
`onEnd('aborted')`. -/
def ReprojectionOperation.onAborted (s : OperationState) :
    Except String (OperationState × OperationState) :=
  if s = .inProgress then .ok (.aborted, .aborted)
  else .error "can only abort operations that are in-progress"

/-- `onFailed()`: asserts in-progress, sets `_state = 'failed'`, invokes
`onEnd('failed')`. -/
def ReprojectionOperation.onFailed (s : OperationState) :
    Except String (OperationState × OperationState) :=
  if s = .inProgress then .ok (.failed, .failed)
  else .error "can only fail operations that are in-progress"

/-- `onComplete()`: asserts in-progress, sets `_state = 'completed'`,
invokes `onEnd('completed')`. -/
def ReprojectionOperation.onComplete (s : OperationState) :
    Except String (OperationState × OperationState) :=
  if s = .inProgress then .ok (.completed, .completed)
  else .error "can only complete operations that are in-progress"

/-- **C5.** A `ReprojectionOperation` starts `in-progress`; each of the
three transition methods succeeds only from `in-progress`, moves to exactly
its terminal state and fires the end callback exactly once (the single
event in the result); and from any non-`in-progress` state every method —
`updateProgress`, `onAborted`, `onFailed`, `onComplete` — throws, so the
state never changes again and no callback fires. -/
theorem reprojectionOperation_state_machine (s : OperationState) (f : ℚ) :
    ReprojectionOperation.initialState = .inProgress ∧
      (∀ r, ReprojectionOperation.onAborted s = .ok r →
        s = .inProgress ∧ r = (.aborted, .aborted)) ∧
      (∀ r, ReprojectionOperation.onFailed s = .ok r →
        s = .inProgress ∧ r = (.failed, .failed)) ∧
      (∀ r, ReprojectionOperation.onComplete s = .ok r →
        s = .inProgress ∧ r = (.completed, .completed)) ∧
      (s ≠ .inProgress →
        (∃ e, ReprojectionOperation.updateProgress s f = .error e) ∧
          (∃ e, ReprojectionOperation.onAborted s = .error e) ∧
            (∃ e, ReprojectionOperation.onFailed s = .error e) ∧
              (∃ e, ReprojectionOperation.onComplete s = .error e)) := by
  cases s <;>
    simp [ReprojectionOperation.initialState, ReprojectionOperation.updateProgress,
      ReprojectionOperation.onAborted, ReprojectionOperation.onFailed,
      ReprojectionOperation.onComplete]

/-- Witness for C5 at the concrete state `completed` (a terminal state)
and fraction `1/2`. -/
theorem reprojectionOperation_state_machine_witness :
    ReprojectionOperation.initialState = .inProgress ∧
      (∀ r, ReprojectionOperation.onAborted .completed = .ok r →
        OperationState.completed = .inProgress ∧ r = (.aborted, .aborted)) ∧
      (∀ r, ReprojectionOperation.onFailed .completed = .ok r →
        OperationState.completed = .inProgress ∧ r = (.failed, .failed)) ∧
      (∀ r, ReprojectionOperation.onComplete .completed = .ok r →
        OperationState.completed = .inProgress ∧ r = (.completed, .completed)) ∧
      (OperationState.completed ≠ .inProgress →
        (∃ e, ReprojectionOperation.updateProgress .completed (1/2) = .error e) ∧
          (∃ e, ReprojectionOperation.onAborted .completed = .error e) ∧
            (∃ e, ReprojectionOperation.onFailed .completed = .error e) ∧
              (∃ e, ReprojectionOperation.onComplete .completed = .error e)) :=
  reprojectionOperation_state_machine .completed (1/2)

/-! ## Per-image manager (`src/ReprojectableImageManager.ts`)

The manager's state observable by these claims: `originalImageSrc`
(readonly, captured at construction), the image element's current `src`,
and the `operations` array.  The array is modelled most-recent-first, so
the source's `push` / `.at(-1)` / `.pop()` become `cons` / `head?` /
`tail`.  Each entry carries the operation's state together with the
`previousImageSrc` captured by the closure in
`startReprojectionOperation`. -/

structure ReprojectableImageManager (α : Type) where
  originalImageSrc : α
  imageSrc : α
  operations : List (OperationState × α)
  deriving DecidableEq

/-- The constructor: `originalImageSrc = image.src`, no operations yet. -/
def ReprojectableImageManager.create (src : α) : ReprojectableImageManager α :=
  ⟨src, src, []⟩

/-- `startReprojectionOperation`: asserts that there is no operation or the
most recent one is not `in-progress`, then pushes a fresh `in-progress`
operation whose closure captures `previousImageSrc = imageElement.src`. -/
def ReprojectableImageManager.startReprojectionOperation (m : ReprojectableImageManager α) :
    Except String (ReprojectableImageManager α) :=
  match m.operations.head? with
  | some (OperationState.inProgress, _) =>
    .error "cannot start an operation if one is in progress"
  | _ => .ok { m with operations := (OperationState.inProgress, m.imageSrc) :: m.operations }

/-- The current (most recent) operation's `onComplete`, combined with the
manager's end callback: `result === 'completed'` is a nop for the image
src; the operation stays on the stack in state `completed`. -/
def ReprojectableImageManager.completeCurrent (m : ReprojectableImageManager α) :
    Except String (ReprojectableImageManager α) :=
  match m.operations with
  | (OperationState.inProgress, prev) :: rest =>
    .ok { m with operations := (OperationState.completed, prev) :: rest }
  | _ => .error "can only complete operations that are in-progress"

/-- The current operation's `onFailed` plus the manager's end callback:
`imageElement.src = previousImageSrc`; the operation stays on the stack in
state `failed`. -/
def ReprojectableImageManager.failCurrent (m : ReprojectableImageManager α) :
    Except String (ReprojectableImageManager α) :=
  match m.operations with
  | (OperationState.inProgress, prev) :: rest =>
    .ok { m with imageSrc := prev, operations := (OperationState.failed, prev) :: rest }
  | _ => .error "can only fail operations that are in-progress"

/-- The current operation's `onAborted` plus the manager's end callback:
`imageElement.src = previousImageSrc; this.operations.pop()` — the
operation transitions to `aborted` and is immediately removed. -/
def ReprojectableImageManager.abortCurrent (m : ReprojectableImageManager α) :
    Except String (ReprojectableImageManager α) :=
  match m.operations with
  | (OperationState.inProgress, prev) :: rest =>
    .ok { m with imageSrc := prev, operations := rest }
  | _ => .error "can only abort operations that are in-progress"

/-- The indicator click handler's `completed` branch (revert):
`imageElement.src = this.originalImageSrc; this.operations = []`. -/
def ReprojectableImageManager.revertClick (m : ReprojectableImageManager α) :
    Except String (ReprojectableImageManager α) :=
  match m.operations with
  | (OperationState.completed, _) :: _ =>
    .ok { m with imageSrc := m.originalImageSrc, operations := [] }
  | _ => .error "revert is only offered for completed operations"

/-- The indicator click handler's `failed` branch: `this.operations.pop()`. -/
def ReprojectableImageManager.dismissErrorClick (m : ReprojectableImageManager α) :
    Except String (ReprojectableImageManager α) :=
  match m.operations with
  | (OperationState.failed, _) :: rest => .ok { m with operations := rest }
  | _ => .error "dismiss is only offered for failed operations"

/-- External effect: the caller assigns `imageElement.src` (e.g. to each
partially reprojected canvas). -/
def ReprojectableImageManager.setImageSrc (m : ReprojectableImageManager α) (b : α) :
    ReprojectableImageManager α :=
  { m with imageSrc := b }

/-- Manager states reachable from construction on an image with src `a`,
under all the operations the source code can perform on it. -/
inductive ManagerReachable (a : α) : ReprojectableImageManager α → Prop where
  | create : ManagerReachable a (ReprojectableImageManager.create a)
  | start {m m2} : ManagerReachable a m →
      m.startReprojectionOperation = .ok m2 → ManagerReachable a m2
  | complete {m m2} : ManagerReachable a m →
      m.completeCurrent = .ok m2 → ManagerReachable a m2
  | fail {m m2} : ManagerReachable a m → m.failCurrent = .ok m2 → ManagerReachable a m2
  | abort {m m2} : ManagerReachable a m → m.abortCurrent = .ok m2 → ManagerReachable a m2
  | revert {m m2} : ManagerReachable a m → m.revertClick = .ok m2 → ManagerReachable a m2
  | dismiss {m m2} : ManagerReachable a m →
      m.dismissErrorClick = .ok m2 → ManagerReachable a m2
  | setSrc {m} (b : α) : ManagerReachable a m → ManagerReachable a (m.setImageSrc b)

/-- Reachability invariant: only the most recent operation can be
`in-progress`, and `originalImageSrc` never changes after construction. -/
theorem managerReachable_invariant {a : α} {m : ReprojectableImageManager α}
    (h : ManagerReachable a m) :
    (∀ op ∈ m.operations.tail, op.1 ≠ OperationState.inProgress) ∧
      m.originalImageSrc = a := by
  induction h with
  | create => simp [ReprojectableImageManager.create]
  | @start m m2 hr hok ih =>
    rw [ReprojectableImageManager.startReprojectionOperation] at hok
    split at hok
    · cases hok
    · rename_i hguard
      simp only [Except.ok.injEq] at hok
      subst hok
      refine ⟨?_, ih.2⟩
      intro op hop
      simp only [List.tail_cons] at hop
      rcases hops : m.operations with _ | ⟨⟨s, p⟩, rest⟩
      · rw [hops] at hop
        simp at hop
      · rw [hops] at hop
        rcases List.mem_cons.mp hop with rfl | hmem
        · intro hs
          apply hguard p
          rw [hops]
          have hseq : s = OperationState.inProgress := hs
          rw [hseq]
          rfl
        · exact ih.1 op (by rw [hops]; simpa using hmem)
  | @complete m m2 hr hok ih =>
    rw [ReprojectableImageManager.completeCurrent] at hok
    split at hok
    · rename_i prev rest hops
      simp only [Except.ok.injEq] at hok
      subst hok
      refine ⟨?_, ih.2⟩
      intro op hop
      exact ih.1 op (by rw [hops]; simpa using hop)
    · cases hok
  | @fail m m2 hr hok ih =>
    rw [ReprojectableImageManager.failCurrent] at hok
    split at hok
    · rename_i prev rest hops
      simp only [Except.ok.injEq] at hok
      subst hok
      refine ⟨?_, ih.2⟩
      intro op hop
      exact ih.1 op (by rw [hops]; simpa using hop)
    · cases hok
  | @abort m m2 hr hok ih =>
    rw [ReprojectableImageManager.abortCurrent] at hok
    split at hok
    · rename_i prev rest hops
      simp only [Except.ok.injEq] at hok
      subst hok
      refine ⟨?_, ih.2⟩
      intro op hop
      simp only at hop
      refine ih.1 op ?_
      rw [hops]
      simp only [List.tail_cons]
      exact List.mem_of_mem_tail hop
    · cases hok
  | @revert m m2 hr hok ih =>
    rw [ReprojectableImageManager.revertClick] at hok
    split at hok
    · simp only [Except.ok.injEq] at hok
      subst hok
      exact ⟨by simp, ih.2⟩
    · cases hok
  | @dismiss m m2 hr hok ih =>
    rw [ReprojectableImageManager.dismissErrorClick] at hok
    split at hok
    · rename_i prev rest hops
      simp only [Except.ok.injEq] at hok
      subst hok
      refine ⟨?_, ih.2⟩
      intro op hop
      simp only at hop
      refine ih.1 op ?_
      rw [hops]
      simp only [List.tail_cons]
      exact List.mem_of_mem_tail hop
    · cases hok
  | setSrc b hr ih =>
    exact ⟨ih.1, ih.2⟩

/-- **C4.** Single-flight: starting a new operation while the most
recently started one is still `in-progress` throws; when there is no prior
operation, or the most recent one is in a terminal state (including the
`aborted` case, in which the manager has popped the aborted operation),
`startReprojectionOperation` succeeds and returns a fresh `in-progress`
operation. -/
theorem startReprojectionOperation_single_flight (a : α)
    (m : ReprojectableImageManager α) (hm : ManagerReachable a m) :
    (∀ p, m.operations.head? = some (OperationState.inProgress, p) →
      ∃ e, m.startReprojectionOperation = .error e) ∧
      ((∀ s p, m.operations.head? = some (s, p) → s ≠ OperationState.inProgress) →
        ∃ m2, m.startReprojectionOperation = .ok m2 ∧
          m2.operations.head? = some (OperationState.inProgress, m.imageSrc)) ∧
      (∀ m2, m.abortCurrent = .ok m2 →
        ∃ m3, m2.startReprojectionOperation = .ok m3 ∧
          m3.operations.head? = some (OperationState.inProgress, m2.imageSrc)) := by
  refine ⟨?_, ?_, ?_⟩
  · intro p hp
    rw [ReprojectableImageManager.startReprojectionOperation, hp]
    exact ⟨_, rfl⟩
  · intro hterm
    refine ⟨⟨m.originalImageSrc, m.imageSrc,
      (OperationState.inProgress, m.imageSrc) :: m.operations⟩, ?_, rfl⟩
    rcases hops : m.operations with _ | ⟨⟨s, p⟩, rest⟩
    · rw [ReprojectableImageManager.startReprojectionOperation, hops]
      rfl
    · have hs := hterm s p (by rw [hops]; rfl)
      cases s
      · exact absurd rfl hs
      all_goals
        rw [ReprojectableImageManager.startReprojectionOperation, hops]
        rfl
  · intro m2 hab
    rw [ReprojectableImageManager.abortCurrent] at hab
    split at hab
    · rename_i prev rest hops
      simp only [Except.ok.injEq] at hab
      subst hab
      have htail := (managerReachable_invariant hm).1
      refine ⟨⟨m.originalImageSrc, prev, (OperationState.inProgress, prev) :: rest⟩, ?_, rfl⟩
      rcases hrest : rest with _ | ⟨⟨s2, p2⟩, rest2⟩
      · subst hrest
        rfl
      · have hs2 : s2 ≠ OperationState.inProgress := by
          have : (s2, p2) ∈ m.operations.tail := by
            rw [hops, hrest]
            simp
          exact htail _ this
        subst hrest
        cases s2
        · exact absurd rfl hs2
        all_goals rfl
    · cases hab

/-- Witness for C4: a freshly created manager (no prior operation) accepts
a new operation; the other conjuncts are instantiated at the same
reachable state. -/
theorem startReprojectionOperation_single_flight_witness :
    (∀ p, (ReprojectableImageManager.create (0 : ℕ)).operations.head? =
        some (OperationState.inProgress, p) →
      ∃ e, (ReprojectableImageManager.create (0 : ℕ)).startReprojectionOperation = .error e) ∧
      ((∀ s p, (ReprojectableImageManager.create (0 : ℕ)).operations.head? = some (s, p) →
          s ≠ OperationState.inProgress) →
        ∃ m2, (ReprojectableImageManager.create (0 : ℕ)).startReprojectionOperation = .ok m2 ∧
          m2.operations.head? =
            some (OperationState.inProgress, (ReprojectableImageManager.create (0 : ℕ)).imageSrc)) ∧
      (∀ m2, (ReprojectableImageManager.create (0 : ℕ)).abortCurrent = .ok m2 →
        ∃ m3, m2.startReprojectionOperation = .ok m3 ∧
          m3.operations.head? = some (OperationState.inProgress, m2.imageSrc)) :=
  startReprojectionOperation_single_flight 0 _ ManagerReachable.create

/-- **C6.** After a start (with arbitrary external image-src updates in
between), `failed` and `aborted` restore the image src captured immediately
before the operation began; `completed` leaves the current (reprojected)
src in place, retains the original pre-any-conversion src, and a later
revert restores that original. -/
theorem manager_restores_on_terminal (a b : α)
    (m m1 : ReprojectableImageManager α) (hm : ManagerReachable a m)
    (hstart : m.startReprojectionOperation = .ok m1) :
    (∀ m2, (m1.setImageSrc b).failCurrent = .ok m2 → m2.imageSrc = m.imageSrc) ∧
      (∀ m2, (m1.setImageSrc b).abortCurrent = .ok m2 → m2.imageSrc = m.imageSrc) ∧
      (∀ m2, (m1.setImageSrc b).completeCurrent = .ok m2 → m2.imageSrc = b ∧
        m2.originalImageSrc = a ∧ ∃ m3, m2.revertClick = .ok m3 ∧ m3.imageSrc = a) := by
  have horig : m.originalImageSrc = a := (managerReachable_invariant hm).2
  rw [ReprojectableImageManager.startReprojectionOperation] at hstart
  split at hstart
  · cases hstart
  · simp only [Except.ok.injEq] at hstart
    subst hstart
    refine ⟨?_, ?_, ?_⟩
    · intro m2 h2
      rw [ReprojectableImageManager.failCurrent] at h2
      simp only [ReprojectableImageManager.setImageSrc] at h2
      simp only [Except.ok.injEq] at h2
      subst h2
      rfl
    · intro m2 h2
      rw [ReprojectableImageManager.abortCurrent] at h2
      simp only [ReprojectableImageManager.setImageSrc] at h2
      simp only [Except.ok.injEq] at h2
      subst h2
      rfl
    · intro m2 h2
      rw [ReprojectableImageManager.completeCurrent] at h2
      simp only [ReprojectableImageManager.setImageSrc] at h2
      simp only [Except.ok.injEq] at h2
      subst h2
      exact ⟨rfl, horig, ⟨_, rfl, horig⟩⟩

/-- Witness for C6 on a concrete manager over `ℕ` srcs: created at src 0,
operation started, image src externally set to 1 during the operation. -/
theorem manager_restores_on_terminal_witness :
    (∀ m2, ((⟨0, 0, [(OperationState.inProgress, 0)]⟩ :
          ReprojectableImageManager ℕ).setImageSrc 1).failCurrent = .ok m2 →
      m2.imageSrc = (ReprojectableImageManager.create (0 : ℕ)).imageSrc) ∧
      (∀ m2, ((⟨0, 0, [(OperationState.inProgress, 0)]⟩ :
            ReprojectableImageManager ℕ).setImageSrc 1).abortCurrent = .ok m2 →
        m2.imageSrc = (ReprojectableImageManager.create (0 : ℕ)).imageSrc) ∧
      (∀ m2, ((⟨0, 0, [(OperationState.inProgress, 0)]⟩ :
            ReprojectableImageManager ℕ).setImageSrc 1).completeCurrent = .ok m2 →
        m2.imageSrc = 1 ∧ m2.originalImageSrc = 0 ∧
          ∃ m3, m2.revertClick = .ok m3 ∧ m3.imageSrc = 0) :=
  manager_restores_on_terminal 0 1 (ReprojectableImageManager.create 0)
    ⟨0, 0, [(OperationState.inProgress, 0)]⟩ ManagerReachable.create rfl

/-! ## Bounds discovery (`computeUnitScaleDimensions` in `src/reproject.ts`) -/

abbrev Q2 := ℚ × ℚ

structure Bounds where
  minX : ℚ
  maxX : ℚ
  minY : ℚ
  maxY : ℚ
  deriving DecidableEq

/-- One iteration of the bounds loop on a surviving (finite) point: update
the running min/max accumulators.  `none` plays the role of the
`±Infinity` initial values before any point has survived, so the source's
final `isFinite(minX) && …` assert is `none`-vs-`some` here. -/
def updateBounds (b : Option Bounds) (p : Q2) : Option Bounds :=
  match b with
  | none => some ⟨p.1, p.1, p.2, p.2⟩
  | some b => some ⟨min b.minX p.1, max b.maxX p.1, min b.minY p.2, max b.maxY p.2⟩

/-- Running min/max of a list of projected points. -/
def boundsOf (pts : List Q2) : Option Bounds := pts.foldl updateBounds none

/-- The sampling points surviving the
`point != null && isFinite(point[0]) && isFinite(point[1])` filter, with
their (finite) projected values. -/
def forwardSurvivors (f : Q2 → Option (JsNum × JsNum)) (pts : List Q2) : List Q2 :=
  pts.filterMap fun ll =>
    match f ll with
    | some p => if p.1.isFinite && p.2.isFinite then some (p.1.toQ, p.2.toQ) else none
    | none => none

/-- The target-projection configuration handed to `reproject`
(`ProjectionConfig` in `src/projections.ts` / `src/reproject.ts`):
the external d3 capability is the black-box pair
`unitForward`/`unitInvert`, observed at `scale(1).translate([0,0])`;
`unitInvert = none` models a projection without an `invert` function.
`longitudeOffset` is consumed only by the construction of the reference
Mercator projection, which is itself an external d3 capability and enters
the model as the `sourceForward` parameter of `reproject`. -/
structure ProjectionConfig where
  unitForward : Q2 → Option (JsNum × JsNum)
  unitInvert : Option (Q2 → Option Q2)
  representativeBoundingCoordinates : List Q2
  longitudeOffset : Option ℚ

/-- `computeUnitScaleDimensions`: project every sampling point at unit
scale, discard null/non-finite results, assert the surviving bounds are
finite, and assert strictly positive width and height. -/
def computeUnitScaleDimensions (cfg : ProjectionConfig) : Except String (ℚ × ℚ) :=
  match boundsOf (forwardSurvivors cfg.unitForward cfg.representativeBoundingCoordinates) with
  | none => .error "could not determine valid projection bounds"
  | some b =>
    if 0 < b.maxX - b.minX ∧ 0 < b.maxY - b.minY then .ok (b.maxX - b.minX, b.maxY - b.minY)
    else .error "computed unit dimensions must be strictly positive"

/-! ## Reprojection driver (`reproject` in `src/reproject.ts`)

The async generator is modelled as a total function from a time oracle
(`now k` = the value of the `k`-th `performance.now()` call) and an abort
oracle (`aborted k` = the value `abortSignal.aborted` has while the
generator runs between its `k`-th and `(k+1)`-th yield — the signal is
owned by the single-threaded host, so it can only change while the
generator is suspended at a yield) to the list of yielded chunks plus the
final destination buffer.  A destination cell holds `none` while untouched
(ImageData starts out all-zero/transparent; `none` records that the loop
never wrote it) and `some rgba` once written. -/

structure ReprojectContext where
  destWidth : ℕ
  destHeight : ℕ
  destForward : Q2 → Option (JsNum × JsNum)
  destInvert : Q2 → Option Q2
  sourceForward : Q2 → Option Q2
  sourceWidth : ℕ
  sourceHeight : ℕ
  sourceData : List ℕ

/-- Steps at `reproject.ts:154-158`: wrap an out-of-range source X by one
image width (at most once in each direction). -/
def wrapX (sourceWidth : ℕ) (sx : ℚ) : ℚ :=
  if sx < 0 then sx + sourceWidth
  else if (sourceWidth : ℚ) ≤ sx then sx - sourceWidth
  else sx

/-- The source-sampling stage of the loop body: forward-project through the
reference Mercator; `null` leaves the pixel blank, otherwise wrap X and
sample the source buffer bilinearly. -/
def sampleSource (ctx : ReprojectContext) (lonLat : Q2) : Option Rgba :=
  match ctx.sourceForward lonLat with
  | none => none
  | some sc =>
    some (bilinearInterpolate ctx.sourceData ctx.sourceWidth ctx.sourceHeight
      (wrapX ctx.sourceWidth sc.1) sc.2)

/-- The loop body for destination pixel `(x, y)`: inverse-project (null ⇒
blank), forward-project back through the same target projection and
compare against the destination coordinate with tolerance `1e-3` per axis
(null or a larger deviation ⇒ blank), then sample the source.  `none`
means no write to the destination buffer. -/
def computePixel (ctx : ReprojectContext) (x y : ℕ) : Option Rgba :=
  match ctx.destInvert ((x : ℚ), (y : ℚ)) with
  | none => none
  | some lonLat =>
    match ctx.destForward lonLat with
    | none => none
    | some rc =>
      if (rc.1.subQ x).abs.gtQ (1 / 1000) || (rc.2.subQ y).abs.gtQ (1 / 1000) then none
      else sampleSource ctx lonLat

/-- Write the result of `computePixel` into the buffer (a `continue`, i.e.
no write at all, when it is `none`). -/
def writePixel (ctx : ReprojectContext) (y : ℕ) (dest : List (Option Rgba)) (x : ℕ) :
    List (Option Rgba) :=
  match computePixel ctx x y with
  | none => dest
  | some rgba => dest.set (y * ctx.destWidth + x) (some rgba)

/-- One yielded progress chunk: the materialized destination surface plus
the progress counters. -/
structure Chunk where
  canvasData : List (Option Rgba)
  pixelsCalculated : ℕ
  totalPixels : ℕ
  deriving DecidableEq

structure LoopState where
  dest : List (Option Rgba)
  pixelsCalculated : ℕ
  lastYieldTime : ℚ
  nowIdx : ℕ
  yieldCount : ℕ
  yields : List Chunk
  deriving DecidableEq

/-- The inner (`x`) loop over one row: increment `pixelsCalculated`, poll
the abort signal (constant during a row, since the signal can only change
at yields), return early if aborted, otherwise compute and write the
pixel. -/
def runPixels (ctx : ReprojectContext) (flag : Bool) (y : ℕ) :
    List ℕ → List (Option Rgba) × ℕ → List (Option Rgba) × ℕ × Bool
  | [], (dest, pc) => (dest, pc, false)
  | x :: xs, (dest, pc) =>
    if flag then (dest, pc + 1, true)
    else runPixels ctx flag y xs (writePixel ctx y dest x, pc + 1)

/-- The outer (`y`) loop: run each row; on early return propagate it;
after each row read `performance.now()` and, if at least 1000 ms have
elapsed since the last yield, materialize and yield a chunk. -/
def runRows (ctx : ReprojectContext) (now : ℕ → ℚ) (aborted : ℕ → Bool) :
    List ℕ → LoopState → LoopState × Bool
  | [], st => (st, false)
  | y :: ys, st =>
    match runPixels ctx (aborted st.yieldCount) y (List.range ctx.destWidth)
        (st.dest, st.pixelsCalculated) with
    | (dest, pc, true) => ({ st with dest := dest, pixelsCalculated := pc }, true)
    | (dest, pc, false) =>
      let currentTime := now st.nowIdx
      if 1000 ≤ currentTime - st.lastYieldTime then
        runRows ctx now aborted ys
          { dest := dest, pixelsCalculated := pc, lastYieldTime := currentTime,
            nowIdx := st.nowIdx + 1, yieldCount := st.yieldCount + 1,
            yields := st.yields ++ [⟨dest, pc, ctx.destWidth * ctx.destHeight⟩] }
      else
        runRows ctx now aborted ys
          { st with dest := dest, pixelsCalculated := pc, nowIdx := st.nowIdx + 1 }

/-- The observable outcome of one `reproject` run: the yielded chunks, the
final destination buffer, and whether the generator returned early because
it observed the abort signal. -/
structure RunResult where
  yields : List Chunk
  dest : List (Option Rgba)
  returnedEarly : Bool
  deriving DecidableEq

/-- The projection scale/translate configuration performed by `reproject`
before the loop (`reproject.ts:72-84`): `destWidth = sourceWidth`,
`destHeight = ceil(destWidth * unitHeight/unitWidth)`, then
`destProjection.scale(destWidth / destUnitWidth)
.translate([destWidth / 2, destHeight / 2])`, which acts affinely on the
unit-scale black box. -/
def mkContext (cfg : ProjectionConfig) (unitInvert : Q2 → Option Q2)
    (sourceForward : Q2 → Option Q2) (sourceWidth sourceHeight : ℕ) (sourceData : List ℕ)
    (destUnitWidth destUnitHeight : ℚ) : ReprojectContext :=
  let destWidth := sourceWidth
  let destHeight := (⌈(destWidth : ℚ) * (destUnitHeight / destUnitWidth)⌉).toNat
  let k := (destWidth : ℚ) / destUnitWidth
  let tx := (destWidth : ℚ) / 2
  let ty := (destHeight : ℚ) / 2
  { destWidth := destWidth
    destHeight := destHeight
    destForward := fun ll => (cfg.unitForward ll).map fun p => (p.1.affine k tx, p.2.affine k ty)
    destInvert := fun p => unitInvert ((p.1 - tx) / k, (p.2 - ty) / k)
    sourceForward := sourceForward
    sourceWidth := sourceWidth
    sourceHeight := sourceHeight
    sourceData := sourceData }

/-- The loop-entry state: all-blank destination buffer,
`lastYieldTime = performance.now()`, nothing yielded. -/
def initialLoopState (ctx : ReprojectContext) (now : ℕ → ℚ) : LoopState :=
  { dest := List.replicate (ctx.destWidth * ctx.destHeight) none
    pixelsCalculated := 0
    lastYieldTime := now 0
    nowIdx := 1
    yieldCount := 0
    yields := [] }

/-- `reproject(sourceImage, projectionConfig, canvasFactory, abortSignal)`:
bounds discovery, the `invert` precondition, projection configuration, the
pixel loop, and the final unconditional yield. -/
def reproject (cfg : ProjectionConfig) (sourceForward : Q2 → Option Q2)
    (sourceWidth sourceHeight : ℕ) (sourceData : List ℕ)
    (now : ℕ → ℚ) (aborted : ℕ → Bool) : Except String RunResult :=
  match computeUnitScaleDimensions cfg with
  | .error e => .error e
  | .ok (destUnitWidth, destUnitHeight) =>
    match cfg.unitInvert with
    | none => .error "projection must support inversion"
    | some unitInvert =>
      let ctx := mkContext cfg unitInvert sourceForward sourceWidth sourceHeight sourceData
        destUnitWidth destUnitHeight
      match runRows ctx now aborted (List.range ctx.destHeight) (initialLoopState ctx now) with
      | (st, true) => .ok ⟨st.yields, st.dest, true⟩
      | (st, false) =>
        .ok ⟨st.yields ++ [⟨st.dest, st.pixelsCalculated, ctx.destWidth * ctx.destHeight⟩],
          st.dest, false⟩

/-- **C3.** Bounds discovery fails with an invalid-bounds error whenever
the points surviving the null/non-finite filter do not produce finite
min/max bounds with strictly positive width and height; in particular when
every sampling point maps to a non-finite value the survivor list is
empty, `computeUnitScaleDimensions` errors, and `reproject` returns that
error before the per-pixel loop (no destination pixel is processed and no
chunk is produced). -/
theorem boundsDiscovery_fails_on_invalid (cfg : ProjectionConfig) :
    ((∀ b, boundsOf (forwardSurvivors cfg.unitForward cfg.representativeBoundingCoordinates) =
        some b → ¬(0 < b.maxX - b.minX ∧ 0 < b.maxY - b.minY)) →
      ∃ e, computeUnitScaleDimensions cfg = .error e) ∧
      ((∀ ll ∈ cfg.representativeBoundingCoordinates, ∀ p, cfg.unitForward ll = some p →
          (p.1.isFinite = false ∨ p.2.isFinite = false)) →
        forwardSurvivors cfg.unitForward cfg.representativeBoundingCoordinates = [] ∧
          ∃ e, computeUnitScaleDimensions cfg = .error e ∧
            ∀ sourceForward sw sh data now aborted,
              reproject cfg sourceForward sw sh data now aborted = .error e) := by
  constructor
  · intro hbad
    unfold computeUnitScaleDimensions
    rcases hb : boundsOf
        (forwardSurvivors cfg.unitForward cfg.representativeBoundingCoordinates) with _ | b
    · exact ⟨_, rfl⟩
    · show ∃ e, (if 0 < b.maxX - b.minX ∧ 0 < b.maxY - b.minY
          then Except.ok (b.maxX - b.minX, b.maxY - b.minY)
          else Except.error "computed unit dimensions must be strictly positive") =
        Except.error e
      rw [if_neg (hbad b hb)]
      exact ⟨_, rfl⟩
  · intro hnf
    have hsur : forwardSurvivors cfg.unitForward cfg.representativeBoundingCoordinates = [] := by
      rw [forwardSurvivors, List.filterMap_eq_nil_iff]
      intro ll hll
      rcases hp : cfg.unitForward ll with _ | p
      · rfl
      · rcases hnf ll hll p hp with h | h <;> simp [h]
    have hc : computeUnitScaleDimensions cfg =
        .error "could not determine valid projection bounds" := by
      unfold computeUnitScaleDimensions
      rw [hsur]
      rfl
    refine ⟨hsur, "could not determine valid projection bounds", hc, ?_⟩
    intro sourceForward sw sh data now aborted
    unfold reproject
    rw [hc]

/-- All-non-finite configuration used as the concrete witness for C3. -/
def cfgAllNaN : ProjectionConfig :=
  { unitForward := fun _ => some (.nan, .nan)
    unitInvert := some fun p => some p
    representativeBoundingCoordinates := [(0, 0)]
    longitudeOffset := none }

/-- Witness for C3: a projection whose only sampling point maps to
`(NaN, NaN)` at unit scale. -/
theorem boundsDiscovery_fails_on_invalid_witness :
    forwardSurvivors cfgAllNaN.unitForward cfgAllNaN.representativeBoundingCoordinates = [] ∧
      ∃ e, computeUnitScaleDimensions cfgAllNaN = .error e ∧
        ∀ sourceForward sw sh data now aborted,
          reproject cfgAllNaN sourceForward sw sh data now aborted = .error e :=
  (boundsDiscovery_fails_on_invalid cfgAllNaN).2 (by
    intro ll hll p hp
    injection hp with h
    subst h
    exact Or.inl rfl)

theorem runPixels_false (ctx : ReprojectContext) (y : ℕ) (xs : List ℕ)
    (dest : List (Option Rgba)) (pc : ℕ) :
    runPixels ctx false y xs (dest, pc) =
      (xs.foldl (writePixel ctx y) dest, pc + xs.length, false) := by
  induction xs generalizing dest pc with
  | nil => simp [runPixels]
  | cons x xs ih =>
    rw [runPixels]
    simp only [Bool.false_eq_true, if_false, ih, List.foldl_cons, List.length_cons]
    have harith : pc + 1 + xs.length = pc + (xs.length + 1) := by omega
    rw [harith]

theorem runRows_no_abort (ctx : ReprojectContext) (now : ℕ → ℚ) (aborted : ℕ → Bool)
    (hab : ∀ k, aborted k = false) :
    ∀ (ys : List ℕ) (st : LoopState),
      (runRows ctx now aborted ys st).2 = false ∧
      (runRows ctx now aborted ys st).1.pixelsCalculated =
        st.pixelsCalculated + ys.length * ctx.destWidth := by
  intro ys
  induction ys with
  | nil =>
    intro st
    simp [runRows]
  | cons y ys ih =>
    intro st
    rw [runRows, hab st.yieldCount, runPixels_false]
    simp only [List.length_range, List.length_cons]
    split
    · refine ⟨(ih _).1, ?_⟩
      rw [(ih _).2]
      show st.pixelsCalculated + ctx.destWidth + ys.length * ctx.destWidth =
        st.pixelsCalculated + (ys.length + 1) * ctx.destWidth
      ring
    · refine ⟨(ih _).1, ?_⟩
      rw [(ih _).2]
      show st.pixelsCalculated + ctx.destWidth + ys.length * ctx.destWidth =
        st.pixelsCalculated + (ys.length + 1) * ctx.destWidth
      ring

/-- **C8.** Every uncancelled run ends by yielding one final chunk whose
`pixelsCalculated` equals `totalPixels = destWidth × destHeight`
(`destWidth = sourceWidth`, `destHeight = ⌈destWidth·unitH/unitW⌉`) and
whose surface is the fully materialized destination buffer — for every
time oracle, i.e. independently of the 1-second yield throttle. -/
theorem reproject_final_chunk_complete (cfg : ProjectionConfig)
    (sourceForward : Q2 → Option Q2) (sw sh : ℕ) (data : List ℕ)
    (now : ℕ → ℚ) (aborted : ℕ → Bool)
    (hab : ∀ k, aborted k = false) (uw uh : ℚ)
    (hdims : computeUnitScaleDimensions cfg = .ok (uw, uh))
    (r : RunResult) (hrun : reproject cfg sourceForward sw sh data now aborted = .ok r) :
    ∃ c, r.yields.getLast? = some c ∧ c.pixelsCalculated = c.totalPixels ∧
      c.totalPixels = sw * (⌈(sw : ℚ) * (uh / uw)⌉).toNat ∧
      c.canvasData = r.dest ∧ r.returnedEarly = false := by
  unfold reproject at hrun
  rw [hdims] at hrun
  rcases hinv : cfg.unitInvert with _ | uinv
  · rw [hinv] at hrun
    cases hrun
  · rw [hinv] at hrun
    dsimp only at hrun
    rcases hrr : runRows (mkContext cfg uinv sourceForward sw sh data uw uh) now aborted
      (List.range (mkContext cfg uinv sourceForward sw sh data uw uh).destHeight)
      (initialLoopState (mkContext cfg uinv sourceForward sw sh data uw uh) now)
      with ⟨st, early⟩
    have hna := runRows_no_abort (mkContext cfg uinv sourceForward sw sh data uw uh) now aborted
      hab (List.range (mkContext cfg uinv sourceForward sw sh data uw uh).destHeight)
      (initialLoopState (mkContext cfg uinv sourceForward sw sh data uw uh) now)
    rw [hrr] at hna hrun
    cases early
    · simp only [Except.ok.injEq] at hrun
      subst hrun
      refine ⟨⟨st.dest, st.pixelsCalculated,
        (mkContext cfg uinv sourceForward sw sh data uw uh).destWidth *
          (mkContext cfg uinv sourceForward sw sh data uw uh).destHeight⟩,
        by simp [List.getLast?_concat], ?_, rfl, rfl, rfl⟩
      have hpc := hna.2
      simp only [initialLoopState, List.length_range] at hpc
      simp only [hpc]
      show 0 + (mkContext cfg uinv sourceForward sw sh data uw uh).destHeight *
        (mkContext cfg uinv sourceForward sw sh data uw uh).destWidth =
        (mkContext cfg uinv sourceForward sw sh data uw uh).destWidth *
        (mkContext cfg uinv sourceForward sw sh data uw uh).destHeight
      ring
    · exact absurd hna.1 (by simp)

/-- Identity-like projection configuration (unit forward = identity on
finite coordinates, natural box `[-1,1]²`), used as concrete witness
input for the driver claims. -/
def cfgIdent : ProjectionConfig :=
  { unitForward := fun ll => some (.fin ll.1, .fin ll.2)
    unitInvert := some fun p => some p
    representativeBoundingCoordinates := [(-1, -1), (1, 1)]
    longitudeOffset := none }

theorem cfgIdent_dims : computeUnitScaleDimensions cfgIdent = .ok (2, 2) := by
  norm_num [computeUnitScaleDimensions, forwardSurvivors, boundsOf, updateBounds, cfgIdent,
    JsNum.isFinite, JsNum.toQ]

/-- Witness for C8 on a concrete 1×1 uncancelled run (time oracle constant,
so the throttled mid-run yields are all suppressed and only the final
unconditional yield is observed). -/
theorem reproject_final_chunk_complete_witness :
    ∃ c, (RunResult.mk [Chunk.mk [none] 1 1] [none] false).yields.getLast? = some c ∧
      c.pixelsCalculated = c.totalPixels ∧
      c.totalPixels = 1 * (⌈((1 : ℕ) : ℚ) * ((2 : ℚ) / 2)⌉).toNat ∧
      c.canvasData = (RunResult.mk [Chunk.mk [none] 1 1] [none] false).dest ∧
      (RunResult.mk [Chunk.mk [none] 1 1] [none] false).returnedEarly = false :=
  reproject_final_chunk_complete cfgIdent (fun _ => none) 1 1 [5, 6, 7, 8] (fun _ => 0)
    (fun _ => false) (fun _ => rfl) 2 2 cfgIdent_dims ⟨[⟨[none], 1, 1⟩], [none], false⟩
    (by norm_num [reproject, computeUnitScaleDimensions, forwardSurvivors, boundsOf, updateBounds,
      cfgIdent, JsNum.isFinite, JsNum.toQ, mkContext, initialLoopState, runRows, runPixels,
      writePixel, computePixel, sampleSource, JsNum.affine, JsNum.subQ, JsNum.abs, JsNum.gtQ,
      List.range_succ, List.range_zero])

theorem runPixels_true_cons (ctx : ReprojectContext) (y x : ℕ) (xs : List ℕ)
    (dest : List (Option Rgba)) (pc : ℕ) :
    runPixels ctx true y (x :: xs) (dest, pc) = (dest, pc + 1, true) := rfl

theorem runRows_abort_characterization (ctx : ReprojectContext) (now : ℕ → ℚ)
    (aborted : ℕ → Bool) (K : ℕ) (hw : 0 < ctx.destWidth)
    (hK : ∀ kk, kk < K → aborted kk = false) (hKt : aborted K = true) :
    ∀ (ys : List ℕ) (st : LoopState),
      st.yields.length = st.yieldCount →
      st.yieldCount ≤ K →
      (st.yieldCount = K →
        (st.yields = [] → ∀ c ∈ st.dest, c = none) ∧
          (∀ c, st.yields.getLast? = some c → c.canvasData = st.dest)) →
      (runRows ctx now aborted ys st).2 = true →
        (runRows ctx now aborted ys st).1.yields.length = K ∧
          ((runRows ctx now aborted ys st).1.yields = [] →
            ∀ c ∈ (runRows ctx now aborted ys st).1.dest, c = none) ∧
          (∀ c, (runRows ctx now aborted ys st).1.yields.getLast? = some c →
            c.canvasData = (runRows ctx now aborted ys st).1.dest) := by
  intro ys
  induction ys with
  | nil =>
    intro st _ _ _ hearly
    rw [runRows] at hearly
    cases hearly
  | cons y ys ih =>
    intro st hlen hle hP hearly
    rcases hxs : List.range ctx.destWidth with _ | ⟨x, xs⟩
    · exact absurd (List.range_eq_nil.mp hxs) (by omega)
    rcases hflag : aborted st.yieldCount with _ | _
    · -- flag false: the row runs to completion, recurse
      rw [runRows, hflag, runPixels_false] at hearly ⊢
      dsimp only at hearly ⊢
      have hcountlt : st.yieldCount < K := by
        rcases lt_or_eq_of_le hle with h | h
        · exact h
        · rw [h, hKt] at hflag
          cases hflag
      split at hearly
      · rename_i htime
        rw [if_pos htime]
        refine ih _ ?_ ?_ ?_ hearly
        · simp [hlen]
        · dsimp only
          omega
        · dsimp only
          intro hEq
          constructor
          · intro habs
            simp at habs
          · intro c hc
            simp only [List.getLast?_concat, Option.some.injEq] at hc
            subst hc
            rfl
      · rename_i htime
        rw [if_neg htime]
        refine ih _ ?_ ?_ ?_ hearly
        · exact hlen
        · dsimp only
          omega
        · dsimp only
          intro hEq
          omega
    · -- flag true: the first pixel of this row observes the abort
      have hcount : st.yieldCount = K := by
        rcases lt_or_eq_of_le hle with h | h
        · rw [hK st.yieldCount h] at hflag
          cases hflag
        · exact h
      rw [runRows, hflag, hxs, runPixels_true_cons]
      dsimp only
      have hPK := hP hcount
      exact ⟨by simpa [hlen] using hcount, hPK.1, hPK.2⟩

/-- **C7.** Cancellation: if the abort signal is first observed-set in
yield-segment `K` (it reads `false` during the first `K` segments and
`true` from segment `K` on) and the run returns early — i.e. some pixel
iteration observed the signal — then the generator terminated at that
first observation: exactly the `K` chunks yielded before cancellation are
delivered, and the destination buffer contains no write made after the
last pre-cancellation yield (it equals that chunk's surface, or is
entirely blank when cancellation preceded the first yield). -/
theorem reproject_cancellation (cfg : ProjectionConfig) (sourceForward : Q2 → Option Q2)
    (sw sh : ℕ) (data : List ℕ) (now : ℕ → ℚ) (aborted : ℕ → Bool) (K : ℕ)
    (hsw : 1 ≤ sw)
    (hK : ∀ kk, kk < K → aborted kk = false) (hKt : aborted K = true)
    (uw uh : ℚ) (hdims : computeUnitScaleDimensions cfg = .ok (uw, uh))
    (r : RunResult) (hrun : reproject cfg sourceForward sw sh data now aborted = .ok r) :
    r.returnedEarly = true →
      r.yields.length = K ∧
        (r.yields = [] → ∀ c ∈ r.dest, c = none) ∧
        (∀ c, r.yields.getLast? = some c → r.dest = c.canvasData) := by
  unfold reproject at hrun
  rw [hdims] at hrun
  rcases hinv : cfg.unitInvert with _ | uinv
  · rw [hinv] at hrun
    cases hrun
  · rw [hinv] at hrun
    dsimp only at hrun
    rcases hrr : runRows (mkContext cfg uinv sourceForward sw sh data uw uh) now aborted
      (List.range (mkContext cfg uinv sourceForward sw sh data uw uh).destHeight)
      (initialLoopState (mkContext cfg uinv sourceForward sw sh data uw uh) now)
      with ⟨st, early⟩
    rw [hrr] at hrun
    cases early
    · simp only [Except.ok.injEq] at hrun
      subst hrun
      intro habs
      cases habs
    · simp only [Except.ok.injEq] at hrun
      subst hrun
      intro _
      have hchar := runRows_abort_characterization
        (mkContext cfg uinv sourceForward sw sh data uw uh) now aborted K hsw hK hKt
        (List.range (mkContext cfg uinv sourceForward sw sh data uw uh).destHeight)
        (initialLoopState (mkContext cfg uinv sourceForward sw sh data uw uh) now)
        rfl (Nat.zero_le K)
        (by
          intro _
          constructor
          · intro _ c hc
            exact List.eq_of_mem_replicate hc
          · intro c hc
            cases hc)
        (by rw [hrr])
      rw [hrr] at hchar
      exact ⟨hchar.1, hchar.2.1, fun c hc => (hchar.2.2 c hc).symm⟩

/-- Witness for C7: a run that is aborted from the start (`K = 0`)
delivers no chunks and leaves the 1×1 destination buffer entirely
blank. -/
theorem reproject_cancellation_witness :
    (RunResult.mk [] [none] true).yields.length = 0 ∧
      ((RunResult.mk [] [none] true).yields = [] →
        ∀ c ∈ (RunResult.mk [] [none] true).dest, c = none) ∧
      (∀ c, (RunResult.mk [] [none] true).yields.getLast? = some c →
        (RunResult.mk [] [none] true).dest = c.canvasData) :=
  reproject_cancellation cfgIdent (fun _ => none) 1 1 [5, 6, 7, 8] (fun _ => 0) (fun _ => true) 0
    (le_refl 1) (fun kk hk => absurd hk (by omega)) rfl 2 2 cfgIdent_dims
    ⟨[], [none], true⟩
    (by norm_num [reproject, computeUnitScaleDimensions, forwardSurvivors, boundsOf, updateBounds,
      cfgIdent, JsNum.isFinite, JsNum.toQ, mkContext, initialLoopState, runRows, runPixels,
      List.range_succ, List.range_zero])
    rfl

theorem writePixel_length (ctx : ReprojectContext) (y : ℕ) (dest : List (Option Rgba)) (x : ℕ) :
    (writePixel ctx y dest x).length = dest.length := by
  unfold writePixel
  split
  · rfl
  · exact List.length_set dest _ _

theorem cellIdx_div (x y w : ℕ) (hx : x < w) : (y * w + x) / w = y := by
  rw [Nat.mul_comm, Nat.mul_add_div (by omega)]
  simp [Nat.div_eq_of_lt hx]

theorem cellIdx_mod (x y w : ℕ) (hx : x < w) : (y * w + x) % w = x := by
  rw [Nat.mul_comm, Nat.mul_add_mod]
  exact Nat.mod_eq_of_lt hx

theorem cellIdx_lt (x y w h : ℕ) (hx : x < w) (hy : y < h) : y * w + x < w * h := by
  calc y * w + x < (y + 1) * w := by nlinarith
  _ ≤ h * w := Nat.mul_le_mul_right w (by omega)
  _ = w * h := Nat.mul_comm h w

theorem writePixel_get_ne (ctx : ReprojectContext) (y : ℕ) (dest : List (Option Rgba))
    (x j : ℕ) (hne : j ≠ y * ctx.destWidth + x) :
    (writePixel ctx y dest x).get? j = dest.get? j := by
  unfold writePixel
  split
  · rfl
  · rw [List.get?_eq_getElem?, List.get?_eq_getElem?, List.getElem?_set_ne (Ne.symm hne)]

theorem foldl_writePixel_get (ctx : ReprojectContext) (y : ℕ) (xs : List ℕ) :
    ∀ (dest : List (Option Rgba)), (∀ x2 ∈ xs, x2 < ctx.destWidth) →
      dest.length = ctx.destWidth * ctx.destHeight →
      ∀ j, j < ctx.destWidth * ctx.destHeight →
        (xs.foldl (writePixel ctx y) dest).get? j =
          if j / ctx.destWidth = y ∧ j % ctx.destWidth ∈ xs then
            (match computePixel ctx (j % ctx.destWidth) y with
             | some r => some (some r)
             | none => dest.get? j)
          else dest.get? j := by
  induction xs with
  | nil =>
    intro dest _ hlen j hj
    simp
  | cons x xs ih =>
    intro dest hxs hlen j hj
    rw [List.foldl_cons]
    have hx : x < ctx.destWidth := hxs x (by simp)
    have hxs2 : ∀ x2 ∈ xs, x2 < ctx.destWidth := fun x2 h2 => hxs x2 (by simp [h2])
    have hlen2 : (writePixel ctx y dest x).length = ctx.destWidth * ctx.destHeight := by
      rw [writePixel_length]
      exact hlen
    have hne_of_mod : j % ctx.destWidth ≠ x → j ≠ y * ctx.destWidth + x := by
      intro hmod hj_eq
      exact hmod (by rw [hj_eq]; exact cellIdx_mod x y ctx.destWidth hx)
    by_cases hdiv : j / ctx.destWidth = y
    · by_cases hmem : j % ctx.destWidth ∈ xs
      · rw [ih _ hxs2 hlen2 j hj, if_pos ⟨hdiv, hmem⟩, if_pos ⟨hdiv, by simp [hmem]⟩]
        rcases hcp : computePixel ctx (j % ctx.destWidth) y with _ | r
        · simp only
          by_cases hjx : j % ctx.destWidth = x
          · have hcpx : computePixel ctx x y = none := by rw [← hjx]; exact hcp
            unfold writePixel
            rw [hcpx]
          · exact writePixel_get_ne ctx y dest x j (hne_of_mod hjx)
        · simp only
      · by_cases hjx : j % ctx.destWidth = x
        · have hj_eq : j = y * ctx.destWidth + x := by
            have hdm := Nat.div_add_mod j ctx.destWidth
            rw [hdiv, hjx, Nat.mul_comm ctx.destWidth y] at hdm
            omega
          rw [ih _ hxs2 hlen2 j hj,
            if_neg (fun hh => hmem hh.2),
            if_pos ⟨hdiv, by simp [hjx]⟩, hjx]
          unfold writePixel
          rcases hcp : computePixel ctx x y with _ | r
          · simp only
          · simp only
            rw [hj_eq, List.get?_eq_getElem?,
              List.getElem?_set_eq_of_lt _ (by rw [hlen]; rw [← hj_eq]; exact hj)]
        · rw [ih _ hxs2 hlen2 j hj,
            if_neg (fun hh => hmem hh.2),
            if_neg (fun hh => by
              rcases List.mem_cons.mp hh.2 with h1 | h1
              · exact hjx h1
              · exact hmem h1)]
          exact writePixel_get_ne ctx y dest x j (hne_of_mod hjx)
    · rw [ih _ hxs2 hlen2 j hj, if_neg (fun hh => hdiv hh.1), if_neg (fun hh => hdiv hh.1)]
      refine writePixel_get_ne ctx y dest x j ?_
      intro hj_eq
      exact hdiv (by rw [hj_eq]; exact cellIdx_div x y ctx.destWidth hx)

theorem foldl_writePixel_length (ctx : ReprojectContext) (y : ℕ) (xs : List ℕ) :
    ∀ dest : List (Option Rgba), (xs.foldl (writePixel ctx y) dest).length = dest.length := by
  induction xs with
  | nil => intro dest; rfl
  | cons x xs ih =>
    intro dest
    rw [List.foldl_cons, ih, writePixel_length]

theorem runRows_dest_no_abort (ctx : ReprojectContext) (now : ℕ → ℚ) (aborted : ℕ → Bool)
    (hab : ∀ k, aborted k = false) (hw : 0 < ctx.destWidth) :
    ∀ (ys : List ℕ) (st : LoopState),
      (∀ y2 ∈ ys, y2 < ctx.destHeight) → ys.Nodup →
      st.dest.length = ctx.destWidth * ctx.destHeight →
      (∀ y2 ∈ ys, ∀ x2, x2 < ctx.destWidth →
        st.dest.get? (y2 * ctx.destWidth + x2) = some none) →
      (runRows ctx now aborted ys st).1.dest.length = ctx.destWidth * ctx.destHeight ∧
        ∀ j, j < ctx.destWidth * ctx.destHeight →
          (runRows ctx now aborted ys st).1.dest.get? j =
            if j / ctx.destWidth ∈ ys then
              some (computePixel ctx (j % ctx.destWidth) (j / ctx.destWidth))
            else st.dest.get? j := by
  intro ys
  induction ys with
  | nil =>
    intro st _ _ hlen _
    rw [runRows]
    exact ⟨hlen, fun j hj => by simp⟩
  | cons y ys ih =>
    intro st hys hnd hlen hblank
    have hy : y < ctx.destHeight := hys y (by simp)
    -- characterize the buffer after this row
    have hd1len : ((List.range ctx.destWidth).foldl (writePixel ctx y) st.dest).length =
        ctx.destWidth * ctx.destHeight := by
      rw [foldl_writePixel_length]
      exact hlen
    have hd1 : ∀ j, j < ctx.destWidth * ctx.destHeight →
        ((List.range ctx.destWidth).foldl (writePixel ctx y) st.dest).get? j =
          if j / ctx.destWidth = y then some (computePixel ctx (j % ctx.destWidth) y)
          else st.dest.get? j := by
      intro j hj
      rw [foldl_writePixel_get ctx y (List.range ctx.destWidth) st.dest
        (fun x2 h2 => List.mem_range.mp h2) hlen j hj]
      have hmod : j % ctx.destWidth ∈ List.range ctx.destWidth :=
        List.mem_range.mpr (Nat.mod_lt j hw)
      by_cases hdiv : j / ctx.destWidth = y
      · rw [if_pos ⟨hdiv, hmod⟩, if_pos hdiv]
        have hj_eq : y * ctx.destWidth + j % ctx.destWidth = j := by
          have hdm := Nat.div_add_mod j ctx.destWidth
          rw [hdiv, Nat.mul_comm ctx.destWidth y] at hdm
          omega
        rcases hcp : computePixel ctx (j % ctx.destWidth) y with _ | r
        · simp only
          rw [← hj_eq]
          exact hblank y (by simp) (j % ctx.destWidth) (Nat.mod_lt j hw)
        · simp only
      · rw [if_neg (fun hh => hdiv hh.1), if_neg hdiv]
    -- the recursive call, for either throttle branch
    have hrec : ∀ st1 : LoopState,
        st1.dest = (List.range ctx.destWidth).foldl (writePixel ctx y) st.dest →
        (runRows ctx now aborted ys st1).1.dest.length = ctx.destWidth * ctx.destHeight ∧
          ∀ j, j < ctx.destWidth * ctx.destHeight →
            (runRows ctx now aborted ys st1).1.dest.get? j =
              if j / ctx.destWidth ∈ ys then
                some (computePixel ctx (j % ctx.destWidth) (j / ctx.destWidth))
              else st1.dest.get? j := by
      intro st1 hst1
      refine ih st1 (fun y2 h2 => hys y2 (by simp [h2])) (List.Nodup.of_cons hnd) ?_ ?_
      · rw [hst1]
        exact hd1len
      · intro y2 h2 x2 hx2
        rw [hst1]
        have hy2 : y2 < ctx.destHeight := hys y2 (by simp [h2])
        rw [hd1 (y2 * ctx.destWidth + x2) (cellIdx_lt x2 y2 _ _ hx2 hy2)]
        have hy2ne : y2 ≠ y := by
          intro hEq
          subst hEq
          exact (List.nodup_cons.mp hnd).1 h2
        rw [if_neg (by rw [cellIdx_div x2 y2 _ hx2]; exact hy2ne)]
        exact hblank y2 (by simp [h2]) x2 hx2
    have hfinal : ∀ st1 : LoopState,
        st1.dest = (List.range ctx.destWidth).foldl (writePixel ctx y) st.dest →
        (runRows ctx now aborted ys st1).1.dest.length = ctx.destWidth * ctx.destHeight ∧
          ∀ j, j < ctx.destWidth * ctx.destHeight →
            (runRows ctx now aborted ys st1).1.dest.get? j =
              if j / ctx.destWidth ∈ y :: ys then
                some (computePixel ctx (j % ctx.destWidth) (j / ctx.destWidth))
              else st.dest.get? j := by
      intro st1 hst1
      refine ⟨(hrec st1 hst1).1, ?_⟩
      intro j hj
      rw [(hrec st1 hst1).2 j hj]
      by_cases hmem : j / ctx.destWidth ∈ ys
      · rw [if_pos hmem, if_pos (by simp [hmem])]
      · rw [if_neg hmem, hst1, hd1 j hj]
        by_cases hdiv : j / ctx.destWidth = y
        · rw [if_pos hdiv, if_pos (by simp [hdiv]), hdiv]
        · rw [if_neg hdiv, if_neg (by
            intro hh
            rcases List.mem_cons.mp hh with h1 | h1
            · exact hdiv h1
            · exact hmem h1)]
    rw [runRows, hab st.yieldCount, runPixels_false]
    dsimp only
    split
    · exact hfinal _ rfl
    · exact hfinal _ rfl

/-- Loop correctness for uncancelled runs: the final destination buffer
holds exactly `computePixel`'s verdict at every cell (`some rgba` when the
pixel was written, `none` when the loop left it untouched). -/
theorem reproject_dest_cell (cfg : ProjectionConfig) (sourceForward : Q2 → Option Q2)
    (sw sh : ℕ) (data : List ℕ) (now : ℕ → ℚ) (aborted : ℕ → Bool)
    (hab : ∀ k, aborted k = false) (hsw : 1 ≤ sw)
    (uw uh : ℚ) (hdims : computeUnitScaleDimensions cfg = .ok (uw, uh))
    (uinv : Q2 → Option Q2) (hinv : cfg.unitInvert = some uinv)
    (r : RunResult) (hrun : reproject cfg sourceForward sw sh data now aborted = .ok r)
    (x y : ℕ) (hx : x < (mkContext cfg uinv sourceForward sw sh data uw uh).destWidth)
    (hy : y < (mkContext cfg uinv sourceForward sw sh data uw uh).destHeight) :
    r.dest.get? (y * (mkContext cfg uinv sourceForward sw sh data uw uh).destWidth + x) =
      some (computePixel (mkContext cfg uinv sourceForward sw sh data uw uh) x y) := by
  unfold reproject at hrun
  rw [hdims, hinv] at hrun
  dsimp only at hrun
  rcases hrr : runRows (mkContext cfg uinv sourceForward sw sh data uw uh) now aborted
    (List.range (mkContext cfg uinv sourceForward sw sh data uw uh).destHeight)
    (initialLoopState (mkContext cfg uinv sourceForward sw sh data uw uh) now)
    with ⟨st, early⟩
  have hna := runRows_no_abort (mkContext cfg uinv sourceForward sw sh data uw uh) now aborted
    hab (List.range (mkContext cfg uinv sourceForward sw sh data uw uh).destHeight)
    (initialLoopState (mkContext cfg uinv sourceForward sw sh data uw uh) now)
  rw [hrr] at hna hrun
  cases early
  · simp only [Except.ok.injEq] at hrun
    subst hrun
    have hchar := runRows_dest_no_abort (mkContext cfg uinv sourceForward sw sh data uw uh)
      now aborted hab hsw
      (List.range (mkContext cfg uinv sourceForward sw sh data uw uh).destHeight)
      (initialLoopState (mkContext cfg uinv sourceForward sw sh data uw uh) now)
      (fun y2 h2 => List.mem_range.mp h2)
      (List.nodup_range _)
      (by simp [initialLoopState])
      (by
        intro y2 h2 x2 hx2
        simp only [initialLoopState]
        rw [List.get?_eq_getElem?, List.getElem?_replicate,
          if_pos (cellIdx_lt x2 y2 _ _ hx2 (List.mem_range.mp h2))])
    rw [hrr] at hchar
    have hj := hchar.2 (y * (mkContext cfg uinv sourceForward sw sh data uw uh).destWidth + x)
      (cellIdx_lt x y _ _ hx hy)
    rw [cellIdx_div x y _ hx, cellIdx_mod x y _ hx] at hj
    rw [hj, if_pos (List.mem_range.mpr hy)]
  · exact absurd hna.1 (by simp)

/-- **C1.** For a destination pixel whose inverse projection is non-null:
when forward-projecting the lon/lat back through the same target
projection gives null, or a point whose x or y differs from the
destination coordinate by more than the 1e-3 tolerance, the driver leaves
the pixel untouched (the destination cell is never written); otherwise the
pixel's value is exactly what the source-sampling stage produces. -/
theorem reproject_roundtrip_blank (cfg : ProjectionConfig) (sourceForward : Q2 → Option Q2)
    (sw sh : ℕ) (data : List ℕ) (now : ℕ → ℚ) (aborted : ℕ → Bool)
    (hab : ∀ k, aborted k = false) (hsw : 1 ≤ sw)
    (uw uh : ℚ) (hdims : computeUnitScaleDimensions cfg = .ok (uw, uh))
    (uinv : Q2 → Option Q2) (hinv : cfg.unitInvert = some uinv)
    (r : RunResult) (hrun : reproject cfg sourceForward sw sh data now aborted = .ok r)
    (ctx : ReprojectContext) (hctx : ctx = mkContext cfg uinv sourceForward sw sh data uw uh)
    (x y : ℕ) (hx : x < ctx.destWidth) (hy : y < ctx.destHeight)
    (ll : Q2) (hll : ctx.destInvert ((x : ℚ), (y : ℚ)) = some ll) :
    (ctx.destForward ll = none → r.dest.get? (y * ctx.destWidth + x) = some none) ∧
      (∀ rc, ctx.destForward ll = some rc →
        ((rc.1.subQ x).abs.gtQ (1 / 1000) = true ∨ (rc.2.subQ y).abs.gtQ (1 / 1000) = true) →
        r.dest.get? (y * ctx.destWidth + x) = some none) ∧
      (∀ rc, ctx.destForward ll = some rc →
        (rc.1.subQ x).abs.gtQ (1 / 1000) = false → (rc.2.subQ y).abs.gtQ (1 / 1000) = false →
        r.dest.get? (y * ctx.destWidth + x) = some (sampleSource ctx ll)) := by
  subst hctx
  have hcell := reproject_dest_cell cfg sourceForward sw sh data now aborted hab hsw
    uw uh hdims uinv hinv r hrun x y hx hy
  refine ⟨?_, ?_, ?_⟩
  · intro hfwd
    rw [hcell]
    unfold computePixel
    rw [hll]
    dsimp only
    rw [hfwd]
  · intro rc hfwd hgt
    rw [hcell]
    unfold computePixel
    rw [hll]
    dsimp only
    rw [hfwd]
    dsimp only
    rcases hgt with hgt | hgt
    · rw [if_pos (by rw [hgt, Bool.true_or])]
    · rw [if_pos (by rw [hgt, Bool.or_true])]
  · intro rc hfwd hgt1 hgt2
    rw [hcell]
    unfold computePixel
    rw [hll]
    dsimp only
    rw [hfwd]
    dsimp only
    rw [if_neg (by rw [hgt1, hgt2]; simp)]

/-- Projection whose forward output is shifted by +2 in Y relative to what
its (identity) invert reports, so every pixel fails the round-trip check:
concrete witness input for C1. -/
def cfgShiftY : ProjectionConfig :=
  { unitForward := fun ll => some (.fin ll.1, .fin (ll.2 + 2))
    unitInvert := some fun p => some p
    representativeBoundingCoordinates := [(-1, -1), (1, 1)]
    longitudeOffset := none }

theorem cfgShiftY_dims : computeUnitScaleDimensions cfgShiftY = .ok (2, 2) := by
  norm_num [computeUnitScaleDimensions, forwardSurvivors, boundsOf, updateBounds, cfgShiftY,
    JsNum.isFinite, JsNum.toQ, List.filterMap_cons, List.filterMap_nil, List.foldl_cons,
    List.foldl_nil]

/-- Witness for C1 on a concrete 1×1 run: pixel (0,0) inverse-projects to
(-1,-1), the forward re-projection lands 1 pixel away (≫ 1e-3), and the
destination cell indeed stays unwritten. -/
theorem reproject_roundtrip_blank_witness :
    ((mkContext cfgShiftY (fun p => some p) (fun _ => none) 1 1 [5, 6, 7, 8] 2 2).destForward
        (-1, -1) = none →
      (RunResult.mk [Chunk.mk [none] 1 1] [none] false).dest.get?
        (0 * (mkContext cfgShiftY (fun p => some p) (fun _ => none) 1 1 [5, 6, 7, 8] 2
          2).destWidth + 0) = some none) ∧
      (∀ rc, (mkContext cfgShiftY (fun p => some p) (fun _ => none) 1 1 [5, 6, 7, 8] 2
          2).destForward (-1, -1) = some rc →
        ((rc.1.subQ (0 : ℕ)).abs.gtQ (1 / 1000) = true ∨
          (rc.2.subQ (0 : ℕ)).abs.gtQ (1 / 1000) = true) →
        (RunResult.mk [Chunk.mk [none] 1 1] [none] false).dest.get?
          (0 * (mkContext cfgShiftY (fun p => some p) (fun _ => none) 1 1 [5, 6, 7, 8] 2
            2).destWidth + 0) = some none) ∧
      (∀ rc, (mkContext cfgShiftY (fun p => some p) (fun _ => none) 1 1 [5, 6, 7, 8] 2
          2).destForward (-1, -1) = some rc →
        (rc.1.subQ (0 : ℕ)).abs.gtQ (1 / 1000) = false →
        (rc.2.subQ (0 : ℕ)).abs.gtQ (1 / 1000) = false →
        (RunResult.mk [Chunk.mk [none] 1 1] [none] false).dest.get?
          (0 * (mkContext cfgShiftY (fun p => some p) (fun _ => none) 1 1 [5, 6, 7, 8] 2
            2).destWidth + 0) =
          some (sampleSource
            (mkContext cfgShiftY (fun p => some p) (fun _ => none) 1 1 [5, 6, 7, 8] 2 2)
            (-1, -1))) :=
  reproject_roundtrip_blank cfgShiftY (fun _ => none) 1 1 [5, 6, 7, 8] (fun _ => 0)
    (fun _ => false) (fun _ => rfl) (le_refl 1) 2 2 cfgShiftY_dims (fun p => some p) rfl
    ⟨[⟨[none], 1, 1⟩], [none], false⟩
    (by norm_num [reproject, computeUnitScaleDimensions, forwardSurvivors, boundsOf, updateBounds,
      cfgShiftY, JsNum.isFinite, JsNum.toQ, mkContext, initialLoopState, runRows, runPixels,
      writePixel, computePixel, sampleSource, JsNum.affine, JsNum.subQ, JsNum.abs, JsNum.gtQ,
      List.range_succ, List.range_zero, List.filterMap_cons, List.filterMap_nil, List.foldl_cons,
      List.foldl_nil])
    _ rfl 0 0 (by norm_num [mkContext]) (by norm_num [mkContext]) (-1, -1)
    (by norm_num [mkContext, cfgShiftY, Prod.ext_iff])

theorem JsNum.isFinite_affine (k t : ℚ) (hk : 0 < k) (v : JsNum) :
    (v.affine k t).isFinite = v.isFinite := by
  cases v <;> simp [JsNum.affine, JsNum.isFinite, hk]

theorem forwardSurvivors_affine (f : Q2 → Option (JsNum × JsNum)) (pts : List Q2)
    (k tx ty : ℚ) (hk : 0 < k) :
    forwardSurvivors (fun ll => (f ll).map fun p => (p.1.affine k tx, p.2.affine k ty)) pts =
      (forwardSurvivors f pts).map fun p => (k * p.1 + tx, k * p.2 + ty) := by
  rw [forwardSurvivors, forwardSurvivors, List.map_filterMap]
  refine congrFun (congrArg List.filterMap (funext fun ll => ?_)) pts
  rcases h : f ll with _ | ⟨a, b⟩
  · simp [h]
  · cases a <;> cases b <;> simp [h, JsNum.affine, JsNum.isFinite, JsNum.toQ, hk]

theorem affine_min (k t a c : ℚ) (hk : 0 ≤ k) : k * min a c + t = min (k * a + t) (k * c + t) := by
  rcases le_total a c with h | h
  · rw [min_eq_left h, min_eq_left (by nlinarith)]
  · rw [min_eq_right h, min_eq_right (by nlinarith)]

theorem affine_max (k t a c : ℚ) (hk : 0 ≤ k) : k * max a c + t = max (k * a + t) (k * c + t) := by
  rcases le_total a c with h | h
  · rw [max_eq_right h, max_eq_right (by nlinarith)]
  · rw [max_eq_left h, max_eq_left (by nlinarith)]

theorem foldl_updateBounds_map_affine (k tx ty : ℚ) (hk : 0 ≤ k) (pts : List Q2) :
    ∀ acc : Option Bounds,
      List.foldl updateBounds
          (acc.map fun b => ⟨k * b.minX + tx, k * b.maxX + tx, k * b.minY + ty, k * b.maxY + ty⟩)
          (pts.map fun p => (k * p.1 + tx, k * p.2 + ty)) =
        (List.foldl updateBounds acc pts).map
          fun b => ⟨k * b.minX + tx, k * b.maxX + tx, k * b.minY + ty, k * b.maxY + ty⟩ := by
  induction pts with
  | nil => intro acc; rfl
  | cons p pts ih =>
    intro acc
    rw [List.map_cons, List.foldl_cons, List.foldl_cons]
    have hstep : updateBounds
        (acc.map fun b => ⟨k * b.minX + tx, k * b.maxX + tx, k * b.minY + ty, k * b.maxY + ty⟩)
        (k * p.1 + tx, k * p.2 + ty) =
        (updateBounds acc p).map
          fun b => ⟨k * b.minX + tx, k * b.maxX + tx, k * b.minY + ty, k * b.maxY + ty⟩ := by
      rcases acc with _ | b
      · rfl
      · simp only [Option.map_some', updateBounds]
        rw [affine_min k tx b.minX p.1 hk, affine_max k tx b.maxX p.1 hk,
          affine_min k ty b.minY p.2 hk, affine_max k ty b.maxY p.2 hk]
    rw [hstep, ih]

theorem boundsOf_map_affine (pts : List Q2) (k tx ty : ℚ) (hk : 0 ≤ k) :
    boundsOf (pts.map fun p => (k * p.1 + tx, k * p.2 + ty)) =
      (boundsOf pts).map
        fun b => ⟨k * b.minX + tx, k * b.maxX + tx, k * b.minY + ty, k * b.maxY + ty⟩ := by
  rw [boundsOf, boundsOf]
  exact foldl_updateBounds_map_affine k tx ty hk pts none

theorem computeUnitScaleDimensions_ok (cfg : ProjectionConfig) (uw uh : ℚ)
    (h : computeUnitScaleDimensions cfg = .ok (uw, uh)) :
    ∃ b, boundsOf (forwardSurvivors cfg.unitForward cfg.representativeBoundingCoordinates) =
        some b ∧
      uw = b.maxX - b.minX ∧ uh = b.maxY - b.minY ∧ 0 < uw ∧ 0 < uh := by
  unfold computeUnitScaleDimensions at h
  rcases hb : boundsOf
      (forwardSurvivors cfg.unitForward cfg.representativeBoundingCoordinates) with _ | b
  · rw [hb] at h
    cases h
  · rw [hb] at h
    dsimp only at h
    split at h
    · rename_i hpos
      simp only [Except.ok.injEq, Prod.mk.injEq] at h
      exact ⟨b, rfl, h.1.symm, h.2.symm, h.1 ▸ hpos.1, h.2 ▸ hpos.2⟩
    · cases h

/-- **C2 (amended).** After bounds discovery, the driver sets
`scale = destWidth/unitWidth` and `translate = (destWidth/2, destHeight/2)`
on the target projection.  Under that configuration, for every projection
whose discovered natural box *is* centered on the origin, forward-projecting
the same sampling points yields a bounding box whose center coincides
exactly with the destination canvas center, whose width is exactly
`destWidth` and whose height matches `destHeight` up to the `ceil`
rounding of `destHeight` (strictly less than one pixel).  (For a natural
box not centered on the origin the code performs no centering
compensation: the box center lands at the canvas center plus
`scale × (natural box center)` — see the counterexample.) -/
theorem reproject_centering_amended (cfg : ProjectionConfig) (uinv : Q2 → Option Q2)
    (sourceForward : Q2 → Option Q2) (sw sh : ℕ) (data : List ℕ) (uw uh : ℚ)
    (hsw : 1 ≤ sw)
    (hdims : computeUnitScaleDimensions cfg = .ok (uw, uh))
    (b : Bounds)
    (hb : boundsOf (forwardSurvivors cfg.unitForward cfg.representativeBoundingCoordinates) =
      some b)
    (hcx : b.minX + b.maxX = 0) (hcy : b.minY + b.maxY = 0)
    (ctx : ReprojectContext) (hctx : ctx = mkContext cfg uinv sourceForward sw sh data uw uh) :
    ∃ b2, boundsOf (forwardSurvivors ctx.destForward
        cfg.representativeBoundingCoordinates) = some b2 ∧
      (b2.minX + b2.maxX) / 2 = (ctx.destWidth : ℚ) / 2 ∧
      (b2.minY + b2.maxY) / 2 = (ctx.destHeight : ℚ) / 2 ∧
      b2.maxX - b2.minX = (ctx.destWidth : ℚ) ∧
      b2.maxY - b2.minY ≤ (ctx.destHeight : ℚ) ∧
      (ctx.destHeight : ℚ) < (b2.maxY - b2.minY) + 1 := by
  obtain ⟨b0, hb0, hdw, hdh, hwpos, hhpos⟩ := computeUnitScaleDimensions_ok cfg uw uh hdims
  have hbb : b0 = b := by
    have h0 := hb0.symm.trans hb
    injection h0
  subst hbb
  subst hctx
  have hswq : (0 : ℚ) < (sw : ℚ) := by
    have h1 : (1 : ℚ) ≤ (sw : ℚ) := by exact_mod_cast hsw
    linarith
  have hk : 0 < (sw : ℚ) / uw := div_pos hswq hwpos
  have hfwd : (mkContext cfg uinv sourceForward sw sh data uw uh).destForward =
      fun ll => (cfg.unitForward ll).map fun p =>
        (p.1.affine ((sw : ℚ) / uw) ((sw : ℚ) / 2),
         p.2.affine ((sw : ℚ) / uw)
           (((⌈(sw : ℚ) * (uh / uw)⌉.toNat : ℕ) : ℚ) / 2)) := rfl
  rw [hfwd, forwardSurvivors_affine cfg.unitForward _ _ _ _ hk, boundsOf_map_affine _ _ _ _ hk.le,
    hb0]
  have hsumX : (sw : ℚ) / uw * b0.minX + (sw : ℚ) / uw * b0.maxX = 0 := by
    have h1 : (sw : ℚ) / uw * (b0.minX + b0.maxX) = 0 := by rw [hcx]; ring
    have h2 : (sw : ℚ) / uw * (b0.minX + b0.maxX) =
        (sw : ℚ) / uw * b0.minX + (sw : ℚ) / uw * b0.maxX := by ring
    linarith [h1, h2]
  have hsumY : (sw : ℚ) / uw * b0.minY + (sw : ℚ) / uw * b0.maxY = 0 := by
    have h1 : (sw : ℚ) / uw * (b0.minY + b0.maxY) = 0 := by rw [hcy]; ring
    have h2 : (sw : ℚ) / uw * (b0.minY + b0.maxY) =
        (sw : ℚ) / uw * b0.minY + (sw : ℚ) / uw * b0.maxY := by ring
    linarith [h1, h2]
  have hdiffX : (sw : ℚ) / uw * b0.maxX - (sw : ℚ) / uw * b0.minX = (sw : ℚ) := by
    have h2 : (sw : ℚ) / uw * b0.maxX - (sw : ℚ) / uw * b0.minX =
        (sw : ℚ) / uw * (b0.maxX - b0.minX) := by ring
    rw [h2, ← hdw, div_mul_cancel₀ _ (ne_of_gt hwpos)]
  have hdiffY : (sw : ℚ) / uw * b0.maxY - (sw : ℚ) / uw * b0.minY =
      (sw : ℚ) * (uh / uw) := by
    have h2 : (sw : ℚ) / uw * b0.maxY - (sw : ℚ) / uw * b0.minY =
        (sw : ℚ) / uw * (b0.maxY - b0.minY) := by ring
    rw [h2, ← hdh]
    ring
  have hvpos : 0 < (sw : ℚ) * (uh / uw) := mul_pos hswq (div_pos hhpos hwpos)
  have hceil : ((⌈(sw : ℚ) * (uh / uw)⌉.toNat : ℕ) : ℚ) =
      ((⌈(sw : ℚ) * (uh / uw)⌉ : ℤ) : ℚ) := by
    have h1 : (0 : ℤ) ≤ ⌈(sw : ℚ) * (uh / uw)⌉ := le_of_lt (Int.ceil_pos.mpr hvpos)
    exact_mod_cast congrArg (fun z : ℤ => (z : ℚ)) (Int.toNat_of_nonneg h1)
  have hceil_ge := Int.le_ceil ((sw : ℚ) * (uh / uw))
  have hceil_lt := Int.ceil_lt_add_one ((sw : ℚ) * (uh / uw))
  have hwd : ((mkContext cfg uinv sourceForward sw sh data uw uh).destWidth : ℚ) = (sw : ℚ) := rfl
  have hhd : ((mkContext cfg uinv sourceForward sw sh data uw uh).destHeight : ℚ) =
      ((⌈(sw : ℚ) * (uh / uw)⌉.toNat : ℕ) : ℚ) := rfl
  refine ⟨_, rfl, ?_, ?_, ?_, ?_, ?_⟩
  · show ((sw : ℚ) / uw * b0.minX + (sw : ℚ) / 2 + ((sw : ℚ) / uw * b0.maxX + (sw : ℚ) / 2)) / 2 =
      ((mkContext cfg uinv sourceForward sw sh data uw uh).destWidth : ℚ) / 2
    rw [hwd]
    linarith [hsumX]
  · show ((sw : ℚ) / uw * b0.minY + ((⌈(sw : ℚ) * (uh / uw)⌉.toNat : ℕ) : ℚ) / 2 +
        ((sw : ℚ) / uw * b0.maxY + ((⌈(sw : ℚ) * (uh / uw)⌉.toNat : ℕ) : ℚ) / 2)) / 2 =
      ((mkContext cfg uinv sourceForward sw sh data uw uh).destHeight : ℚ) / 2
    rw [hhd]
    linarith [hsumY]
  · show (sw : ℚ) / uw * b0.maxX + (sw : ℚ) / 2 - ((sw : ℚ) / uw * b0.minX + (sw : ℚ) / 2) =
      ((mkContext cfg uinv sourceForward sw sh data uw uh).destWidth : ℚ)
    rw [hwd]
    linarith [hdiffX]
  · show (sw : ℚ) / uw * b0.maxY + ((⌈(sw : ℚ) * (uh / uw)⌉.toNat : ℕ) : ℚ) / 2 -
        ((sw : ℚ) / uw * b0.minY + ((⌈(sw : ℚ) * (uh / uw)⌉.toNat : ℕ) : ℚ) / 2) ≤
      ((mkContext cfg uinv sourceForward sw sh data uw uh).destHeight : ℚ)
    rw [hhd, hceil]
    linarith [hdiffY, hceil_ge]
  · show ((mkContext cfg uinv sourceForward sw sh data uw uh).destHeight : ℚ) <
      (sw : ℚ) / uw * b0.maxY + ((⌈(sw : ℚ) * (uh / uw)⌉.toNat : ℕ) : ℚ) / 2 -
        ((sw : ℚ) / uw * b0.minY + ((⌈(sw : ℚ) * (uh / uw)⌉.toNat : ℕ) : ℚ) / 2) + 1
    rw [hhd, hceil]
    linarith [hdiffY, hceil_lt]

/-- A projection whose natural (unit-scale) box is `[0,2] × [0,2]` — not
centered on the origin: counterexample input for C2 as stated. -/
def cfgOffCenter : ProjectionConfig :=
  { unitForward := fun ll => some (.fin (ll.1 + 1), .fin (ll.2 + 1))
    unitInvert := some fun p => some p
    representativeBoundingCoordinates := [(-1, -1), (1, 1)]
    longitudeOffset := none }

/-- **C2 counterexample.** For `cfgOffCenter` (source width 2): bounds
discovery succeeds with the natural box `[0,2]²`, which is *not* centered
on the origin; forward-projecting the same sampling points under the
projection as reconfigured by the driver
(`scale = destWidth/unitWidth = 1`, `translate = (1, 1)`) gives the box
`[1,3]²`, whose x-center `2` misses the destination canvas x-center `1` by
a full pixel — far beyond floating-point tolerance.  So the claim's
centering property fails on precisely the class of projections
("natural box not already centered on the origin") it asserts it for. -/
theorem reproject_centering_counterexample :
    computeUnitScaleDimensions cfgOffCenter = .ok (2, 2) ∧
      boundsOf (forwardSurvivors cfgOffCenter.unitForward
        cfgOffCenter.representativeBoundingCoordinates) = some ⟨0, 2, 0, 2⟩ ∧
      (Bounds.mk (0 : ℚ) 2 0 2).minX + (Bounds.mk (0 : ℚ) 2 0 2).maxX ≠ 0 ∧
      boundsOf (forwardSurvivors
        (mkContext cfgOffCenter (fun p => some p) (fun _ => none) 2 2 [] 2 2).destForward
        cfgOffCenter.representativeBoundingCoordinates) = some ⟨1, 3, 1, 3⟩ ∧
      ¬(|((Bounds.mk (1 : ℚ) 3 1 3).minX + (Bounds.mk (1 : ℚ) 3 1 3).maxX) / 2 -
          ((mkContext cfgOffCenter (fun p => some p) (fun _ => none) 2 2 [] 2
            2).destWidth : ℚ) / 2| ≤ 1 / 1000) := by
  refine ⟨?_, ?_, by norm_num, ?_, ?_⟩
  · norm_num [computeUnitScaleDimensions, forwardSurvivors, boundsOf, updateBounds, cfgOffCenter,
      JsNum.isFinite, JsNum.toQ, List.filterMap_cons, List.filterMap_nil, List.foldl_cons,
      List.foldl_nil]
  · norm_num [forwardSurvivors, boundsOf, updateBounds, cfgOffCenter, JsNum.isFinite, JsNum.toQ,
      List.filterMap_cons, List.filterMap_nil, List.foldl_cons, List.foldl_nil, Bounds.mk.injEq]
  · norm_num [forwardSurvivors, boundsOf, updateBounds, cfgOffCenter, mkContext, JsNum.isFinite,
      JsNum.toQ, JsNum.affine, List.filterMap_cons, List.filterMap_nil, List.foldl_cons,
      List.foldl_nil, Bounds.mk.injEq, show Int.toNat 2 = 2 from rfl]
  · norm_num [mkContext]

/-- Witness for the amended C2 on `cfgIdent`, whose natural box `[-1,1]²`
is centered on the origin (source 2×1). -/
theorem reproject_centering_amended_witness :
    ∃ b2, boundsOf (forwardSurvivors
        (mkContext cfgIdent (fun p => some p) (fun _ => none) 2 1 [] 2 2).destForward
        cfgIdent.representativeBoundingCoordinates) = some b2 ∧
      (b2.minX + b2.maxX) / 2 =
        ((mkContext cfgIdent (fun p => some p) (fun _ => none) 2 1 [] 2 2).destWidth : ℚ) / 2 ∧
      (b2.minY + b2.maxY) / 2 =
        ((mkContext cfgIdent (fun p => some p) (fun _ => none) 2 1 [] 2 2).destHeight : ℚ) / 2 ∧
      b2.maxX - b2.minX =
        ((mkContext cfgIdent (fun p => some p) (fun _ => none) 2 1 [] 2 2).destWidth : ℚ) ∧
      b2.maxY - b2.minY ≤
        ((mkContext cfgIdent (fun p => some p) (fun _ => none) 2 1 [] 2 2).destHeight : ℚ) ∧
      ((mkContext cfgIdent (fun p => some p) (fun _ => none) 2 1 [] 2 2).destHeight : ℚ) <
        (b2.maxY - b2.minY) + 1 :=
  reproject_centering_amended cfgIdent (fun p => some p) (fun _ => none) 2 1 [] 2 2
    (by norm_num) cfgIdent_dims ⟨-1, 1, -1, 1⟩
    (by norm_num [forwardSurvivors, boundsOf, updateBounds, cfgIdent, JsNum.isFinite, JsNum.toQ,
      List.filterMap_cons, List.filterMap_nil, List.foldl_cons, List.foldl_nil, Bounds.mk.injEq])
    (by norm_num) (by norm_num) _ rfl

end MapExt
